import Mathlib

/-!
# Receive-side acknowledgment bookkeeping of `ugo` (`packet_receiver.go`)

A shallow embedding of `packetReceiver` and its three operations
(`ReceivedPacket`, `ReceivedStopWaiting`, `GetAckFrame`) together with the
internal `garbageCollectReceivedTimes`.

* `uint32` values are natural numbers; every place where the Go code can wrap
  carries an explicit `% 4294967296`.
* `time.Now()` is an explicit argument `now`.
* `map[uint32]time.Time` is an association list whose keys are kept distinct.
* The `for` loop of `garbageCollectReceivedTimes` is a fuelled loop: `none`
  means that the fuel ran out before the loop condition became false.
* An out-of-range slice index (a Go run-time panic) is `none`.
-/

namespace ugo

/-! ## Errors -/

/-- The four error values of `packet_receiver.go`. -/
inductive Err where
  | ErrDuplicatePacket
  | ErrPacketSmallerThanLastStopWaiting
  | errInvalidPacketNumber
  | errTooManyOutstandingReceivedPackets
  deriving DecidableEq, Repr

/-! ## The History collaborator -/

/-- Modelled from the spec: the `AckRange` type (declared outside
`packet_receiver.go`), a closed interval `[FirstPacketNumber, LastPacketNumber]`
of sequence numbers. -/
structure AckRange where
  FirstPacketNumber : Nat
  LastPacketNumber : Nat
  deriving DecidableEq, Repr

/-- Modelled from the spec: the History collaborator `recvHistory` (its source
is not part of `packet_receiver.go`).  Per the spec it is an interval set over
sequence numbers; it is kept here as the ascending list of the recorded
numbers, from which the ranges are computed. -/
structure recvHistory where
  nums : List Nat
  deriving DecidableEq, Repr

/-- Modelled from the spec: `newRecvHistory`, the empty History. -/
def newRecvHistory : recvHistory := ⟨[]⟩

/-- Ordered insertion without repetition into an ascending list. -/
def insertAsc (p : Nat) : List Nat → List Nat
  | [] => [p]
  | x :: xs =>
    if p < x then p :: x :: xs
    else if p = x then x :: xs
    else x :: insertAsc p xs

/-- Modelled from the spec: History `insert(pn)` (`recvHistory.ReceivedPacket`),
"record a sequence number as received". -/
def recvHistory.ReceivedPacket (r : recvHistory) (p : Nat) : recvHistory :=
  ⟨insertAsc p r.nums⟩

/-- Modelled from the spec: History `truncate_below(threshold)`
(`recvHistory.DeleteBelow`), "remove all recorded sequence numbers strictly
less than `threshold`". -/
def recvHistory.DeleteBelow (r : recvHistory) (t : Nat) : recvHistory :=
  ⟨r.nums.filter (fun x => decide (t ≤ x))⟩

/-- The maximal runs of consecutive numbers of an ascending list, in ascending
order. -/
def rangesOf : List Nat → List AckRange
  | [] => []
  | x :: xs =>
    match rangesOf xs with
    | [] => [⟨x, x⟩]
    | r :: rs =>
      if x + 1 = r.FirstPacketNumber then ⟨x, r.LastPacketNumber⟩ :: rs
      else ⟨x, x⟩ :: r :: rs

/-- Modelled from the spec: History `ranges()` (`recvHistory.GetAckRanges`),
the "ordered sequence of AckRange: ascending by lower bound, disjoint,
non-adjacent". -/
def recvHistory.GetAckRanges (r : recvHistory) : List AckRange :=
  rangesOf r.nums

/-! ## The acknowledgment summary -/

/-- Modelled from the spec: the `sack` frame type (declared outside
`packet_receiver.go`), the spec's AcknowledgmentSummary.  `AckRanges = none`
is the Go `nil` slice. -/
structure sack where
  LargestAcked : Nat
  LargestInOrder : Nat
  AckRanges : Option (List AckRange)
  PacketReceivedTime : Nat
  deriving DecidableEq, Repr

/-! ## The `receivedTimes` map -/

/-- The pair `_, ok := m[k]`: is `k` a key of the map. -/
def hasKey (m : List (Nat × Nat)) (k : Nat) : Bool :=
  m.any (fun e => e.1 == k)

/-- The Go builtin `delete(m, k)`. -/
def mapDelete (m : List (Nat × Nat)) (k : Nat) : List (Nat × Nat) :=
  m.filter (fun e => e.1 != k)

/-- The Go assignment `m[k] = v`. -/
def mapSet (m : List (Nat × Nat)) (k v : Nat) : List (Nat × Nat) :=
  (k, v) :: mapDelete m k

/-! ## The tracker -/

/-- The struct `packetReceiver`. -/
structure packetReceiver where
  largestInOrderObserved : Nat
  largestObserved : Nat
  ignorePacketsBelow : Nat
  currentAckFrame : Option sack
  stateChanged : Bool
  packetHistory : recvHistory
  receivedTimes : List (Nat × Nat)
  lowestInReceivedTimes : Nat
  deriving DecidableEq, Repr

/-- The constructor `newReceivedPacketHandler`: every scalar field has its Go
zero value. -/
def newReceivedPacketHandler : packetReceiver where
  largestInOrderObserved := 0
  largestObserved := 0
  ignorePacketsBelow := 0
  currentAckFrame := none
  stateChanged := false
  packetHistory := newRecvHistory
  receivedTimes := []
  lowestInReceivedTimes := 0

/-- The method `packetReceiver.ReceivedPacket`.  The result is the tracker
after the call together with the returned error (`none` is Go `nil`). -/
def packetReceiver.ReceivedPacket (h : packetReceiver) (packetNumber now : Nat) :
    packetReceiver × Option Err :=
  if packetNumber = 0 then
    (h, some Err.errInvalidPacketNumber)
  else if packetNumber ≤ h.ignorePacketsBelow then
    (h, some Err.ErrPacketSmallerThanLastStopWaiting)
  else if packetNumber ≤ h.largestInOrderObserved ∨ hasKey h.receivedTimes packetNumber = true then
    (h, some Err.ErrDuplicatePacket)
  else
    let hist1 := h.packetHistory.ReceivedPacket packetNumber
    let lo := if packetNumber > h.largestObserved then packetNumber else h.largestObserved
    let adv : Bool := decide (packetNumber = (h.largestInOrderObserved + 1) % 4294967296)
    let lio := if adv then packetNumber else h.largestInOrderObserved
    let hist2 := if adv then hist1.DeleteBelow lio else hist1
    let times1 :=
      if adv then mapDelete h.receivedTimes ((packetNumber + 4294967296 - 1) % 4294967296)
      else h.receivedTimes
    let times2 := mapSet times1 packetNumber now
    let h2 : packetReceiver :=
      { largestInOrderObserved := lio
        largestObserved := lo
        ignorePacketsBelow := h.ignorePacketsBelow
        currentAckFrame := none
        stateChanged := true
        packetHistory := hist2
        receivedTimes := times2
        lowestInReceivedTimes := lio }
    if times2.length % 4294967296 > 1000 then
      (h2, some Err.errTooManyOutstandingReceivedPackets)
    else
      (h2, none)

/-- The loop `for i := lo; i <= hi; i++ { delete(m, i) }` over `uint32`, with
fuel: one unit per evaluation of the loop condition. -/
def gcLoop : Nat → Nat → Nat → List (Nat × Nat) → Option (List (Nat × Nat))
  | 0, _, _, _ => none
  | fuel + 1, i, hi, m =>
    if i ≤ hi then gcLoop fuel ((i + 1) % 4294967296) hi (mapDelete m i)
    else some m

/-- The method `packetReceiver.garbageCollectReceivedTimes`. -/
def packetReceiver.garbageCollectReceivedTimes (fuel : Nat) (h : packetReceiver) :
    Option packetReceiver :=
  match gcLoop fuel h.lowestInReceivedTimes h.ignorePacketsBelow h.receivedTimes with
  | none => none
  | some m =>
    some { h with receivedTimes := m, lowestInReceivedTimes := h.ignorePacketsBelow }

/-- The method `packetReceiver.ReceivedStopWaiting`.  The Go method returns the
error `nil` on every path, so the result is only the tracker after the call;
`none` means that a garbage-collection loop did not finish within `fuel`.  The
diagnostic `fmt.Printf` is not modelled. -/
def packetReceiver.ReceivedStopWaiting (fuel : Nat) (h : packetReceiver) (f : Nat) :
    Option packetReceiver :=
  let h0 := { h with stateChanged := true }
  if h0.ignorePacketsBelow ≥ f then some h0
  else
    let h1 := { h0 with ignorePacketsBelow := (f + 4294967296 - 1) % 4294967296 }
    match h1.garbageCollectReceivedTimes fuel with
    | none => none
    | some h2 =>
      let h3 :=
        if f > h2.largestInOrderObserved then
          { h2 with largestInOrderObserved := (f + 4294967296 - 1) % 4294967296 }
        else h2
      let h4 := { h3 with packetHistory := h3.packetHistory.DeleteBelow f }
      let ackRanges := h4.packetHistory.GetAckRanges
      match ackRanges.getLast? with
      | none => some h4
      | some last =>
        let n := last.LastPacketNumber
        let h5 :=
          { h4 with
            packetHistory := h4.packetHistory.DeleteBelow n
            largestInOrderObserved := n
            ignorePacketsBelow := n }
        h5.garbageCollectReceivedTimes fuel

/-- The method `packetReceiver.GetAckFrame`.  `some (h, none)` is the Go result
`(nil, nil)`, `some (h, some fr)` is `(fr, nil)`, and `none` is the run-time
panic of `ackRanges[len(ackRanges)-1]` on an empty slice. -/
def packetReceiver.GetAckFrame (h : packetReceiver) (dequeue : Bool) (now : Nat) :
    Option (packetReceiver × Option sack) :=
  if h.stateChanged = false then some (h, none)
  else
    let h1 := if dequeue then { h with stateChanged := false } else h
    match h1.currentAckFrame with
    | some fr => some (h1, some fr)
    | none =>
      let ackRanges := h1.packetHistory.GetAckRanges
      match ackRanges.getLast? with
      | none => none
      | some last =>
        let fr : sack :=
          { LargestAcked := h1.largestObserved
            LargestInOrder := last.FirstPacketNumber
            AckRanges := if ackRanges.length > 1 then some ackRanges else none
            PacketReceivedTime := now }
        some ({ h1 with currentAckFrame := some fr }, some fr)

/-! ## Sequences of calls -/

/-- One completed call on the tracker, with its arguments and what it
returned. -/
inductive Event where
  | packet (pn now : Nat) (res : Option Err)
  | stopWaiting (f : Nat)
  | ackFrame (dequeue : Bool) (now : Nat) (res : Option sack)
  deriving DecidableEq, Repr

/-- The relation `Step h e h2`: the call described by `e`, with `uint32`
arguments, started in `h` returns and leaves the tracker in `h2`. -/
inductive Step : packetReceiver → Event → packetReceiver → Prop where
  | packet (h : packetReceiver) (pn now : Nat) (hpn : pn < 4294967296) :
      Step h (Event.packet pn now (h.ReceivedPacket pn now).2) (h.ReceivedPacket pn now).1
  | stopWaiting (h : packetReceiver) (fuel f : Nat) (h2 : packetReceiver)
      (hf : f < 4294967296) (hr : h.ReceivedStopWaiting fuel f = some h2) :
      Step h (Event.stopWaiting f) h2
  | ackFrame (h : packetReceiver) (dequeue : Bool) (now : Nat) (h2 : packetReceiver)
      (res : Option sack) (hr : h.GetAckFrame dequeue now = some (h2, res)) :
      Step h (Event.ackFrame dequeue now res) h2

/-- The relation `Run h evs h2`: the calls `evs`, in order, lead from `h` to
`h2`. -/
inductive Run : packetReceiver → List Event → packetReceiver → Prop where
  | nil (h : packetReceiver) : Run h [] h
  | snoc {h h1 h2 : packetReceiver} {evs : List Event} {e : Event}
      (hr : Run h evs h1) (hs : Step h1 e h2) : Run h (evs ++ [e]) h2

/-- A tracker state that some sequence of calls produces from a fresh
tracker. -/
def Reachable (h : packetReceiver) : Prop :=
  ∃ evs, Run newReceivedPacketHandler evs h

/-- Feed a list of calls `(packetNumber, now)` to `ReceivedPacket`, one after
the other, collecting the returned errors. -/
def recvAll : packetReceiver → List (Nat × Nat) → packetReceiver × List (Option Err)
  | h, [] => (h, [])
  | h, c :: cs =>
    let r := h.ReceivedPacket c.1 c.2
    let rest := recvAll r.1 cs
    (rest.1, r.2 :: rest.2)

/-- The tracker after the packets 3, 1, 2 (at times 10, 11, 12) on a fresh
tracker. -/
def afterPackets312 : packetReceiver :=
  (((newReceivedPacketHandler.ReceivedPacket 3 10).1.ReceivedPacket 1 11).1.ReceivedPacket
    2 12).1

/-- The errors returned by `n` successive admissions, each adding one entry to
a `receivedTimes` map that holds `m` entries at the start. -/
def overflowFrom : Nat → Nat → List (Option Err)
  | _, 0 => []
  | m, n + 1 =>
    (if (m + 1) % 4294967296 > 1000 then some Err.errTooManyOutstandingReceivedPackets
      else none) :: overflowFrom (m + 1) n

/-- The 1001 calls `ReceivedPacket(2)`, `ReceivedPacket(4)`, ...,
`ReceivedPacket(2002)`, all at time 0. -/
def evenCalls : List (Nat × Nat) :=
  (List.range 1001).map (fun i => (2 * i + 2, 0))

/-- The tracker after `ReceivedStopWaiting(3)` on a fresh tracker. -/
def afterStopWaiting3 : packetReceiver where
  largestInOrderObserved := 2
  largestObserved := 0
  ignorePacketsBelow := 2
  currentAckFrame := none
  stateChanged := true
  packetHistory := ⟨[]⟩
  receivedTimes := []
  lowestInReceivedTimes := 2

/-- The tracker after `ReceivedStopWaiting(5)` on a fresh tracker. -/
def afterStopWaiting5 : packetReceiver where
  largestInOrderObserved := 4
  largestObserved := 0
  ignorePacketsBelow := 4
  currentAckFrame := none
  stateChanged := true
  packetHistory := ⟨[]⟩
  receivedTimes := []
  lowestInReceivedTimes := 4

/-! ## Predicates used in the statements -/

/-- The keys of a map, in list order. -/
def keysOf (m : List (Nat × Nat)) : List Nat := m.map Prod.fst

/-- What a terminating sweep over `[i, hi]` leaves of the map. -/
def sweep (i hi : Nat) (m : List (Nat × Nat)) : List (Nat × Nat) :=
  m.filter (fun e => !(decide (i ≤ e.1) && decide (e.1 ≤ hi)))

/-- The first three guards of `ReceivedPacket`: the packet is rejected. -/
def Rejected (h : packetReceiver) (pn : Nat) : Prop :=
  pn = 0 ∨ pn ≤ h.ignorePacketsBelow ∨ pn ≤ h.largestInOrderObserved ∨
    pn ∈ keysOf h.receivedTimes

instance (h : packetReceiver) (pn : Nat) : Decidable (Rejected h pn) := by
  unfold Rejected; infer_instance

/-- What holds of every tracker reachable from a fresh one: all numbers are
`uint32` values; History holds nothing below `largestInOrderObserved`; the keys
of `receivedTimes` are distinct, not below `lowestInReceivedTimes`, not below
`largestInOrderObserved`, and above `ignorePacketsBelow`. -/
structure Inv (h : packetReceiver) : Prop where
  lio_lt : h.largestInOrderObserved < 4294967296
  ib_lt : h.ignorePacketsBelow < 4294967296
  floor_lt : h.lowestInReceivedTimes < 4294967296
  hist_lt : ∀ x ∈ h.packetHistory.nums, x < 4294967296
  hist_ge : ∀ x ∈ h.packetHistory.nums, h.largestInOrderObserved ≤ x
  keys_nodup : (keysOf h.receivedTimes).Nodup
  keys_lt : ∀ k ∈ keysOf h.receivedTimes, k < 4294967296
  keys_floor : ∀ k ∈ keysOf h.receivedTimes, h.lowestInReceivedTimes ≤ k
  keys_lio : ∀ k ∈ keysOf h.receivedTimes, h.largestInOrderObserved ≤ k
  keys_ib : ∀ k ∈ keysOf h.receivedTimes, h.ignorePacketsBelow < k
  lio_le : h.largestInOrderObserved ≤ max h.largestObserved h.ignorePacketsBelow

/-- A nonzero packet number with this property is rejected as stale or as a
duplicate. -/
def Covered (h : packetReceiver) (pn : Nat) : Prop :=
  pn ≤ h.ignorePacketsBelow ∨ pn ≤ h.largestInOrderObserved ∨ pn ∈ keysOf h.receivedTimes

/-- The tracker after `ReceivedPacket(5)` at time 7 on a fresh tracker. -/
def afterPacket5 : packetReceiver where
  largestInOrderObserved := 0
  largestObserved := 5
  ignorePacketsBelow := 0
  currentAckFrame := none
  stateChanged := true
  packetHistory := ⟨[5]⟩
  receivedTimes := [(5, 7)]
  lowestInReceivedTimes := 0

/-- The tracker after `ReceivedPacket(5)` and then `ReceivedStopWaiting(3)` on
a fresh tracker: the low-water mark is collapsed to 5. -/
def afterPacket5StopWaiting3 : packetReceiver where
  largestInOrderObserved := 5
  largestObserved := 5
  ignorePacketsBelow := 5
  currentAckFrame := none
  stateChanged := true
  packetHistory := ⟨[5]⟩
  receivedTimes := []
  lowestInReceivedTimes := 5

/-- The packet numbers that the `ReceivedPacket` calls of a run admitted (the
calls that returned `nil` or the overflow error), in call order. -/
def admittedOf (evs : List Event) : List Nat :=
  evs.filterMap (fun e =>
    match e with
    | Event.packet pn _ res =>
      if res = none ∨ res = some Err.errTooManyOutstandingReceivedPackets then some pn
      else none
    | _ => none)

/-- The two calls `ReceivedPacket(2)` at time 0 and `ReceivedPacket(1)` at time
1, both returning `nil`. -/
def packets21 : List Event := [Event.packet 2 0 none, Event.packet 1 1 none]

/-- The tracker after `ReceivedPacket(2)` and then `ReceivedPacket(1)` on a
fresh tracker. -/
def afterPackets21 : packetReceiver where
  largestInOrderObserved := 1
  largestObserved := 2
  ignorePacketsBelow := 0
  currentAckFrame := none
  stateChanged := true
  packetHistory := ⟨[1, 2]⟩
  receivedTimes := [(1, 1), (2, 0)]
  lowestInReceivedTimes := 1

/-- The tracker after `ReceivedPacket(1)` at time 7 on a fresh tracker. -/
def afterPacket1 : packetReceiver where
  largestInOrderObserved := 1
  largestObserved := 1
  ignorePacketsBelow := 0
  currentAckFrame := none
  stateChanged := true
  packetHistory := ⟨[1]⟩
  receivedTimes := [(1, 7)]
  lowestInReceivedTimes := 1

/-- The acknowledgment frame built at time 9 after packet 1 alone. -/
def frameOf1 : sack where
  LargestAcked := 1
  LargestInOrder := 1
  AckRanges := none
  PacketReceivedTime := 9

/-- The tracker after `ReceivedPacket(5)` at time 7 and `ReceivedPacket(3)` at
time 8 on a fresh tracker. -/
def afterPackets53 : packetReceiver where
  largestInOrderObserved := 0
  largestObserved := 5
  ignorePacketsBelow := 0
  currentAckFrame := none
  stateChanged := true
  packetHistory := ⟨[3, 5]⟩
  receivedTimes := [(3, 8), (5, 7)]
  lowestInReceivedTimes := 0

/-- The acknowledgment frame built at time 9 after the packets 5 and 3. -/
def frameOf53 : sack where
  LargestAcked := 5
  LargestInOrder := 5
  AckRanges := some [⟨3, 3⟩, ⟨5, 5⟩]
  PacketReceivedTime := 9

/-- The tracker after the packets 5 and 3 and a `GetAckFrame(false)` at time 9,
which caches `frameOf53`. -/
def afterPackets53Cached : packetReceiver :=
  { afterPackets53 with currentAckFrame := some frameOf53 }

/-- The tracker `afterPackets53Cached` after `ReceivedStopWaiting(4)`. -/
def afterStopWaiting4Cached : packetReceiver where
  largestInOrderObserved := 5
  largestObserved := 5
  ignorePacketsBelow := 5
  currentAckFrame := some frameOf53
  stateChanged := true
  packetHistory := ⟨[5]⟩
  receivedTimes := []
  lowestInReceivedTimes := 5

/-- The tracker after `ReceivedPacket(4294967295)` at time 0 on a fresh
tracker. -/
def afterPacketMax : packetReceiver where
  largestInOrderObserved := 0
  largestObserved := 4294967295
  ignorePacketsBelow := 0
  currentAckFrame := none
  stateChanged := true
  packetHistory := ⟨[4294967295]⟩
  receivedTimes := [(4294967295, 0)]
  lowestInReceivedTimes := 0

/-- The tracker after `ReceivedStopWaiting(0)` on a fresh tracker. -/
def afterStopWaiting0 : packetReceiver where
  largestInOrderObserved := 0
  largestObserved := 0
  ignorePacketsBelow := 0
  currentAckFrame := none
  stateChanged := true
  packetHistory := ⟨[]⟩
  receivedTimes := []
  lowestInReceivedTimes := 0

/-! ## Facts about the `receivedTimes` map -/

theorem hasKey_iff (m : List (Nat × Nat)) (k : Nat) :
    hasKey m k = true ↔ k ∈ keysOf m := by
  unfold hasKey keysOf
  induction m with
  | nil => simp
  | cons e m ih =>
    simp only [List.any_cons, Bool.or_eq_true, ih, List.map_cons, List.mem_cons, beq_iff_eq]
    constructor
    · rintro (h | h)
      · exact Or.inl h.symm
      · exact Or.inr h
    · rintro (h | h)
      · exact Or.inl h.symm
      · exact Or.inr h

theorem mem_keysOf_filter (p : Nat → Bool) (m : List (Nat × Nat)) (k : Nat) :
    k ∈ keysOf (m.filter (fun e => p e.1)) ↔ k ∈ keysOf m ∧ p k = true := by
  unfold keysOf
  simp only [List.mem_map, List.mem_filter]
  constructor
  · rintro ⟨e, ⟨he, hp⟩, rfl⟩
    exact ⟨⟨e, he, rfl⟩, hp⟩
  · rintro ⟨⟨e, he, rfl⟩, hp⟩
    exact ⟨e, ⟨he, hp⟩, rfl⟩

theorem keysOf_filter_sublist (p : Nat × Nat → Bool) (m : List (Nat × Nat)) :
    List.Sublist (keysOf (m.filter p)) (keysOf m) := by
  unfold keysOf
  exact List.Sublist.map _ (List.filter_sublist m)

theorem mem_keysOf_mapDelete (m : List (Nat × Nat)) (k j : Nat) :
    j ∈ keysOf (mapDelete m k) ↔ j ∈ keysOf m ∧ j ≠ k := by
  unfold mapDelete
  rw [mem_keysOf_filter (fun x => x != k) m j]
  simp

theorem mem_keysOf_mapSet (m : List (Nat × Nat)) (k v j : Nat) :
    j ∈ keysOf (mapSet m k v) ↔ j = k ∨ (j ∈ keysOf m ∧ j ≠ k) := by
  unfold mapSet
  rw [← mem_keysOf_mapDelete]
  simp [keysOf]

theorem mem_keysOf_sweep (i hi : Nat) (m : List (Nat × Nat)) (k : Nat) :
    k ∈ keysOf (sweep i hi m) ↔ k ∈ keysOf m ∧ ¬ (i ≤ k ∧ k ≤ hi) := by
  unfold sweep
  rw [mem_keysOf_filter (fun x => !(decide (i ≤ x) && decide (x ≤ hi))) m k]
  constructor
  · rintro ⟨h1, h2⟩
    refine ⟨h1, ?_⟩
    simp at h2
    omega
  · rintro ⟨h1, h2⟩
    refine ⟨h1, ?_⟩
    simp
    omega

theorem nodup_mapDelete (m : List (Nat × Nat)) (k : Nat) (h : (keysOf m).Nodup) :
    (keysOf (mapDelete m k)).Nodup :=
  List.Nodup.sublist (keysOf_filter_sublist _ m) h

theorem nodup_sweep (i hi : Nat) (m : List (Nat × Nat)) (h : (keysOf m).Nodup) :
    (keysOf (sweep i hi m)).Nodup :=
  List.Nodup.sublist (keysOf_filter_sublist _ m) h

theorem nodup_mapSet (m : List (Nat × Nat)) (k v : Nat) (h : (keysOf m).Nodup) :
    (keysOf (mapSet m k v)).Nodup := by
  have h1 := nodup_mapDelete m k h
  have h2 : k ∉ keysOf (mapDelete m k) := by
    rw [mem_keysOf_mapDelete]; simp
  unfold mapSet
  unfold keysOf at *
  simp only [List.map_cons, List.nodup_cons]
  exact ⟨h2, h1⟩

theorem length_mapDelete_le (m : List (Nat × Nat)) (k : Nat) :
    (mapDelete m k).length ≤ m.length :=
  List.length_filter_le _ m

theorem length_sweep_le (i hi : Nat) (m : List (Nat × Nat)) :
    (sweep i hi m).length ≤ m.length :=
  List.length_filter_le _ m

/-- Deleting a key that is absent changes nothing. -/
theorem mapDelete_of_not_mem (m : List (Nat × Nat)) (k : Nat) (h : k ∉ keysOf m) :
    mapDelete m k = m := by
  unfold mapDelete
  rw [List.filter_eq_self]
  intro e he
  have : e.1 ∈ keysOf m := List.mem_map_of_mem Prod.fst he
  simp only [bne_iff_ne, ne_eq]
  intro hk
  exact h (hk ▸ this)

/-- A list of distinct numbers below `N` has at most `N` entries. -/
theorem length_le_of_nodup_lt (l : List Nat) (N : Nat) (hn : l.Nodup)
    (hlt : ∀ x ∈ l, x < N) : l.length ≤ N := by
  have hsub : l ⊆ List.range N := fun x hx => List.mem_range.mpr (hlt x hx)
  have := (List.Nodup.subperm hn hsub).length_le
  simpa using this

/-! ## Facts about the garbage-collection loop -/

/-- With upper bound `4294967295` the loop condition `i <= hi` holds for every
`uint32` value of `i`: the loop never ends. -/
theorem gcLoop_max_none (fuel : Nat) : ∀ (i : Nat) (m : List (Nat × Nat)),
    i < 4294967296 → gcLoop fuel i 4294967295 m = none := by
  induction fuel with
  | zero => intro i m _; rfl
  | succ n ih =>
    intro i m hi
    unfold gcLoop
    have h1 : i ≤ 4294967295 := by omega
    rw [if_pos h1]
    exact ih _ _ (Nat.mod_lt _ (by norm_num))

theorem sweep_step (i hi : Nat) (m : List (Nat × Nat)) (h : i ≤ hi) :
    sweep (i + 1) hi (mapDelete m i) = sweep i hi m := by
  unfold sweep mapDelete
  rw [List.filter_filter]
  apply List.filter_congr
  intro e _
  by_cases h1 : e.1 = i
  · simp [h1, h]
  · have h2 : (i + 1 ≤ e.1) ↔ (i ≤ e.1) := by omega
    simp [h1, h2]

theorem sweep_empty (i hi : Nat) (m : List (Nat × Nat)) (h : ¬ i ≤ hi) :
    sweep i hi m = m := by
  unfold sweep
  rw [List.filter_eq_self]
  intro e _
  simp
  omega

/-- Whenever the loop ends it has removed exactly the keys in `[i, hi]`, and
the upper bound is not the largest `uint32` unless the range is empty. -/
theorem gcLoop_some (fuel : Nat) : ∀ (i hi : Nat) (m m2 : List (Nat × Nat)),
    i < 4294967296 → hi < 4294967296 → gcLoop fuel i hi m = some m2 →
    m2 = sweep i hi m ∧ (hi < i ∨ hi + 1 < 4294967296) := by
  induction fuel with
  | zero => intro i hi m m2 _ _ h; simp [gcLoop] at h
  | succ n ih =>
    intro i hi m m2 hi1 hi2 h
    unfold gcLoop at h
    by_cases hc : i ≤ hi
    · rw [if_pos hc] at h
      by_cases hmax : hi = 4294967295
      · subst hmax
        rw [gcLoop_max_none n _ _ (Nat.mod_lt _ (by norm_num))] at h
        exact absurd h (by simp)
      · have hi3 : i + 1 < 4294967296 := by omega
        rw [Nat.mod_eq_of_lt hi3] at h
        have := ih (i + 1) hi _ m2 hi3 hi2 h
        rw [sweep_step i hi m hc] at this
        exact ⟨this.1, Or.inr (by omega)⟩
    · rw [if_neg hc] at h
      have : m = m2 := by simpa using h
      subst this
      exact ⟨(sweep_empty i hi m hc).symm, Or.inl (by omega)⟩

/-- Enough fuel lets the loop end, unless the upper bound is `4294967295`. -/
theorem gcLoop_enough (hi : Nat) : ∀ (fuel i : Nat) (m : List (Nat × Nat)),
    hi + 1 < 4294967296 → hi + 2 ≤ fuel + i → 1 ≤ fuel →
    gcLoop fuel i hi m = some (sweep i hi m) := by
  intro fuel
  induction fuel with
  | zero =>
    intro i m _ _ h3
    omega
  | succ n ih =>
    intro i m h1 h2 _
    unfold gcLoop
    by_cases hc : i ≤ hi
    · rw [if_pos hc]
      have hi3 : i + 1 < 4294967296 := by omega
      rw [Nat.mod_eq_of_lt hi3, ih (i + 1) _ h1 (by omega) (by omega), sweep_step i hi m hc]
    · rw [if_neg hc, sweep_empty i hi m hc]

/-! ## Facts about the History model -/

theorem mem_insertAsc (p : Nat) (l : List Nat) (x : Nat) :
    x ∈ insertAsc p l ↔ x = p ∨ x ∈ l := by
  induction l with
  | nil => simp [insertAsc]
  | cons y ys ih =>
    unfold insertAsc
    by_cases h1 : p < y
    · simp [h1]
    · by_cases h2 : p = y
      · subst h2; simp
      · simp only [h1, h2, if_false, List.mem_cons, ih]
        tauto

theorem rangesOf_eq_nil (l : List Nat) : rangesOf l = [] ↔ l = [] := by
  cases l with
  | nil => simp [rangesOf]
  | cons x xs =>
    simp only [rangesOf, reduceCtorEq, iff_false]
    split
    · simp
    · split <;> simp

theorem rangesOf_cons (x : Nat) (xs : List Nat) :
    rangesOf (x :: xs) =
      match rangesOf xs with
      | [] => [⟨x, x⟩]
      | r :: rs =>
        if x + 1 = r.FirstPacketNumber then ⟨x, r.LastPacketNumber⟩ :: rs
        else ⟨x, x⟩ :: r :: rs := by
  rw [rangesOf]

/-- The upper bound of the last range is the last recorded number. -/
theorem rangesOf_getLast (l : List Nat) :
    (rangesOf l).getLast?.map AckRange.LastPacketNumber = l.getLast? := by
  induction l with
  | nil => simp [rangesOf]
  | cons x xs ih =>
    cases xs with
    | nil => simp [rangesOf]
    | cons y ys =>
      have hne : rangesOf (y :: ys) ≠ [] := by
        rw [Ne, rangesOf_eq_nil]; simp
      rw [List.getLast?_cons_cons, ← ih, rangesOf_cons x (y :: ys)]
      generalize rangesOf (y :: ys) = rs at hne
      cases rs with
      | nil => exact absurd rfl hne
      | cons r rs =>
        simp only
        cases rs with
        | nil => split <;> simp
        | cons r2 rs2 => split <;> simp [List.getLast?_cons_cons]

theorem rangesOf_last_mem (l : List Nat) (r : AckRange)
    (h : (rangesOf l).getLast? = some r) : r.LastPacketNumber ∈ l := by
  have h1 := rangesOf_getLast l
  rw [h] at h1
  simp only [Option.map_some'] at h1
  exact List.mem_of_getLast?_eq_some h1.symm

/-! ## What each operation does to the tracker -/

theorem ite_pair_fst {α β : Type} (c : Prop) [Decidable c] (a : α) (x y : β) :
    (if c then (a, x) else (a, y)).1 = a := by
  split <;> rfl

theorem ite_pair_snd {α β : Type} (c : Prop) [Decidable c] (a : α) (x y : β) :
    (if c then (a, x) else (a, y)).2 = if c then x else y := by
  split <;> rfl

theorem recv_rejected (h : packetReceiver) (pn now : Nat) (hr : Rejected h pn) :
    (h.ReceivedPacket pn now).1 = h := by
  unfold Rejected at hr
  rw [← hasKey_iff] at hr
  unfold packetReceiver.ReceivedPacket
  by_cases h0 : pn = 0
  · simp [h0]
  · by_cases h1 : pn ≤ h.ignorePacketsBelow
    · simp [h0, h1]
    · have h2 : pn ≤ h.largestInOrderObserved ∨ hasKey h.receivedTimes pn = true := by tauto
      simp [h0, h1, h2]

/-- The tracker after an admitted packet (lines 59-75 of the source), with the
wrap-around of `largestInOrderObserved+1` and `packetNumber-1` resolved. -/
theorem recv_admitted (h : packetReceiver) (pn now : Nat) (hlt : pn < 4294967296)
    (hr : ¬ Rejected h pn) :
    (h.ReceivedPacket pn now).1 =
      { largestInOrderObserved :=
          if pn = h.largestInOrderObserved + 1 then pn else h.largestInOrderObserved
        largestObserved := max h.largestObserved pn
        ignorePacketsBelow := h.ignorePacketsBelow
        currentAckFrame := none
        stateChanged := true
        packetHistory :=
          if pn = h.largestInOrderObserved + 1 then
            (h.packetHistory.ReceivedPacket pn).DeleteBelow pn
          else h.packetHistory.ReceivedPacket pn
        receivedTimes :=
          (pn, now) ::
            (if pn = h.largestInOrderObserved + 1 then
              mapDelete h.receivedTimes h.largestInOrderObserved
            else h.receivedTimes)
        lowestInReceivedTimes :=
          if pn = h.largestInOrderObserved + 1 then pn else h.largestInOrderObserved } := by
  unfold Rejected at hr
  have h0 : pn ≠ 0 := fun e => hr (Or.inl e)
  have h1 : ¬ pn ≤ h.ignorePacketsBelow := fun e => hr (Or.inr (Or.inl e))
  have h2 : ¬ pn ≤ h.largestInOrderObserved := fun e => hr (Or.inr (Or.inr (Or.inl e)))
  have h3 : pn ∉ keysOf h.receivedTimes := fun e => hr (Or.inr (Or.inr (Or.inr e)))
  have h3b : ¬ hasKey h.receivedTimes pn = true := by rwa [hasKey_iff]
  have hmod : (h.largestInOrderObserved + 1) % 4294967296 = h.largestInOrderObserved + 1 :=
    Nat.mod_eq_of_lt (by omega)
  have hmax : (if pn > h.largestObserved then pn else h.largestObserved)
      = max h.largestObserved pn := by
    split <;> omega
  unfold packetReceiver.ReceivedPacket
  rw [if_neg h0, if_neg h1, if_neg (by tauto)]
  simp only [hmod, hmax]
  by_cases hadv : pn = h.largestInOrderObserved + 1
  · have hp1 : (pn + 4294967296 - 1) % 4294967296 = h.largestInOrderObserved := by omega
    have hk : pn ∉ keysOf (mapDelete h.receivedTimes h.largestInOrderObserved) := by
      rw [mem_keysOf_mapDelete]
      exact fun hc => h3 hc.1
    subst hadv
    simp only [decide_True, if_true, hp1, mapSet, mapDelete_of_not_mem _ _ hk]
    split <;> rfl
  · simp only [hadv, decide_False, if_false, mapSet, mapDelete_of_not_mem _ _ h3,
      Bool.false_eq_true]
    split <;> rfl

theorem recv_result (h : packetReceiver) (pn now : Nat) :
    (h.ReceivedPacket pn now).2 =
      if pn = 0 then some Err.errInvalidPacketNumber
      else if pn ≤ h.ignorePacketsBelow then some Err.ErrPacketSmallerThanLastStopWaiting
      else if pn ≤ h.largestInOrderObserved ∨ pn ∈ keysOf h.receivedTimes then
        some Err.ErrDuplicatePacket
      else if (h.ReceivedPacket pn now).1.receivedTimes.length % 4294967296 > 1000 then
        some Err.errTooManyOutstandingReceivedPackets
      else none := by
  have hk := hasKey_iff h.receivedTimes pn
  unfold packetReceiver.ReceivedPacket
  by_cases h0 : pn = 0
  · simp [h0]
  · by_cases h1 : pn ≤ h.ignorePacketsBelow
    · simp [h0, h1]
    · by_cases h2 : pn ≤ h.largestInOrderObserved ∨ hasKey h.receivedTimes pn = true
      · have h2b : pn ≤ h.largestInOrderObserved ∨ pn ∈ keysOf h.receivedTimes := by
          rwa [hk] at h2
        simp only [h0, h1, h2, h2b, if_true, if_false]
      · have h2b : ¬ (pn ≤ h.largestInOrderObserved ∨ pn ∈ keysOf h.receivedTimes) := by
          rwa [hk] at h2
        simp only [h0, h1, h2, h2b, if_false, ite_pair_fst, ite_pair_snd]

theorem stopWaiting_noop (fuel : Nat) (h : packetReceiver) (f : Nat)
    (hle : f ≤ h.ignorePacketsBelow) :
    h.ReceivedStopWaiting fuel f = some { h with stateChanged := true } := by
  unfold packetReceiver.ReceivedStopWaiting
  simp only [ge_iff_le, hle, if_true]

/-- The two effective paths of `ReceivedStopWaiting` (lines 91-109 of the
source), with the wrap-around of `f - 1` resolved: `m1` is the map after the
first sweep, `m2` the map after the second. -/
theorem stopWaiting_shape (fuel : Nat) (h : packetReceiver) (f : Nat) (h2 : packetReceiver)
    (hlt : h.ignorePacketsBelow < f) (hf : f < 4294967296)
    (hr : h.ReceivedStopWaiting fuel f = some h2) :
    ∃ m1, gcLoop fuel h.lowestInReceivedTimes (f - 1) h.receivedTimes = some m1 ∧
      (((h.packetHistory.DeleteBelow f).nums = [] ∧
          h2 =
            { largestInOrderObserved :=
                if f > h.largestInOrderObserved then f - 1 else h.largestInOrderObserved
              largestObserved := h.largestObserved
              ignorePacketsBelow := f - 1
              currentAckFrame := h.currentAckFrame
              stateChanged := true
              packetHistory := h.packetHistory.DeleteBelow f
              receivedTimes := m1
              lowestInReceivedTimes := f - 1 }) ∨
        ∃ r m2, (h.packetHistory.DeleteBelow f).GetAckRanges.getLast? = some r ∧
          gcLoop fuel (f - 1) r.LastPacketNumber m1 = some m2 ∧
          h2 =
            { largestInOrderObserved := r.LastPacketNumber
              largestObserved := h.largestObserved
              ignorePacketsBelow := r.LastPacketNumber
              currentAckFrame := h.currentAckFrame
              stateChanged := true
              packetHistory := (h.packetHistory.DeleteBelow f).DeleteBelow r.LastPacketNumber
              receivedTimes := m2
              lowestInReceivedTimes := r.LastPacketNumber }) := by
  have hsub : (f + 4294967296 - 1) % 4294967296 = f - 1 := by omega
  have hnle : ¬ f ≤ h.ignorePacketsBelow := by omega
  unfold packetReceiver.ReceivedStopWaiting at hr
  simp only [ge_iff_le, hnle, if_false, hsub, packetReceiver.garbageCollectReceivedTimes] at hr
  cases hg : gcLoop fuel h.lowestInReceivedTimes (f - 1) h.receivedTimes with
  | none => rw [hg] at hr; simp at hr
  | some m1 =>
    refine ⟨m1, rfl, ?_⟩
    rw [hg] at hr
    simp only at hr
    by_cases hfl : f > h.largestInOrderObserved
    · simp only [hfl, if_true] at hr ⊢
      cases hl : (h.packetHistory.DeleteBelow f).GetAckRanges.getLast? with
      | none =>
        left
        rw [hl] at hr
        simp only [Option.some.injEq] at hr
        refine ⟨?_, hr.symm⟩
        rw [List.getLast?_eq_none_iff] at hl
        exact (rangesOf_eq_nil _).mp hl
      | some r =>
        right
        rw [hl] at hr
        simp only at hr
        cases hg2 : gcLoop fuel (f - 1) r.LastPacketNumber m1 with
        | none => rw [hg2] at hr; simp at hr
        | some m2 =>
          rw [hg2] at hr
          simp only [Option.some.injEq] at hr
          exact ⟨r, m2, rfl, hg2, hr.symm⟩
    · simp only [hfl, if_false] at hr ⊢
      cases hl : (h.packetHistory.DeleteBelow f).GetAckRanges.getLast? with
      | none =>
        left
        rw [hl] at hr
        simp only [Option.some.injEq] at hr
        refine ⟨?_, hr.symm⟩
        rw [List.getLast?_eq_none_iff] at hl
        exact (rangesOf_eq_nil _).mp hl
      | some r =>
        right
        rw [hl] at hr
        simp only at hr
        cases hg2 : gcLoop fuel (f - 1) r.LastPacketNumber m1 with
        | none => rw [hg2] at hr; simp at hr
        | some m2 =>
          rw [hg2] at hr
          simp only [Option.some.injEq] at hr
          exact ⟨r, m2, rfl, hg2, hr.symm⟩

theorem mem_DeleteBelow (r : recvHistory) (t x : Nat) :
    x ∈ (r.DeleteBelow t).nums ↔ x ∈ r.nums ∧ t ≤ x := by
  simp [recvHistory.DeleteBelow, List.mem_filter]

theorem mem_ReceivedPacket (r : recvHistory) (p x : Nat) :
    x ∈ (r.ReceivedPacket p).nums ↔ x = p ∨ x ∈ r.nums := by
  simp [recvHistory.ReceivedPacket, mem_insertAsc]

/-- The upper bound of the last range reported by History is a recorded
number. -/
theorem lastRange_mem (r : recvHistory) (a : AckRange)
    (h : r.GetAckRanges.getLast? = some a) : a.LastPacketNumber ∈ r.nums :=
  rangesOf_last_mem r.nums a h

/-- The fields of the tracker that `GetAckFrame` does not touch. -/
theorem ackFrame_fields (h : packetReceiver) (dequeue : Bool) (now : Nat)
    (h2 : packetReceiver) (res : Option sack)
    (hr : h.GetAckFrame dequeue now = some (h2, res)) :
    h2.largestInOrderObserved = h.largestInOrderObserved ∧
    h2.largestObserved = h.largestObserved ∧
    h2.ignorePacketsBelow = h.ignorePacketsBelow ∧
    h2.packetHistory = h.packetHistory ∧
    h2.receivedTimes = h.receivedTimes ∧
    h2.lowestInReceivedTimes = h.lowestInReceivedTimes := by
  unfold packetReceiver.GetAckFrame at hr
  by_cases hs : h.stateChanged = false
  · simp only [hs, if_true, Option.some.injEq, Prod.mk.injEq] at hr
    obtain ⟨e, _⟩ := hr
    subst e
    exact ⟨rfl, rfl, rfl, rfl, rfl, rfl⟩
  · simp only [hs, if_false] at hr
    cases dequeue <;> simp only [Bool.false_eq_true, if_false, if_true] at hr <;>
      split at hr <;> try split at hr <;> try split at hr
    all_goals
      first
      | (simp only [Option.some.injEq, Prod.mk.injEq] at hr
         obtain ⟨e, _⟩ := hr
         subst e
         exact ⟨rfl, rfl, rfl, rfl, rfl, rfl⟩)
      | (simp at hr)

/-! ## The invariant of reachable trackers -/

theorem Inv_fresh : Inv newReceivedPacketHandler := by
  constructor <;> simp [newReceivedPacketHandler, newRecvHistory, keysOf]

theorem Inv_recv (h : packetReceiver) (pn now : Nat) (hpn : pn < 4294967296) (hi : Inv h) :
    Inv (h.ReceivedPacket pn now).1 := by
  by_cases hr : Rejected h pn
  · rw [recv_rejected h pn now hr]; exact hi
  · rw [recv_admitted h pn now hpn hr]
    unfold Rejected at hr
    have h0 : pn ≠ 0 := fun e => hr (Or.inl e)
    have h1 : ¬ pn ≤ h.ignorePacketsBelow := fun e => hr (Or.inr (Or.inl e))
    have h2 : ¬ pn ≤ h.largestInOrderObserved := fun e => hr (Or.inr (Or.inr (Or.inl e)))
    have h3 : pn ∉ keysOf h.receivedTimes := fun e => hr (Or.inr (Or.inr (Or.inr e)))
    have hlio := hi.lio_le
    by_cases hadv : pn = h.largestInOrderObserved + 1
    · simp only [hadv, if_true]
      have hkcons : ∀ k, k ∈ keysOf ((h.largestInOrderObserved + 1, now) ::
          mapDelete h.receivedTimes h.largestInOrderObserved) ↔
          k = h.largestInOrderObserved + 1 ∨
            (k ∈ keysOf h.receivedTimes ∧ k ≠ h.largestInOrderObserved) := by
        intro k
        rw [← mem_keysOf_mapDelete]
        simp [keysOf]
      constructor
      · simp only; omega
      · exact hi.ib_lt
      · simp only; omega
      · intro x hx
        simp only [mem_DeleteBelow, mem_ReceivedPacket] at hx
        rcases hx.1 with e | e
        · omega
        · exact hi.hist_lt x e
      · intro x hx
        simp only [mem_DeleteBelow, mem_ReceivedPacket] at hx
        exact hx.2
      · have hn := nodup_mapDelete h.receivedTimes h.largestInOrderObserved hi.keys_nodup
        have hk : h.largestInOrderObserved + 1 ∉
            keysOf (mapDelete h.receivedTimes h.largestInOrderObserved) := by
          rw [mem_keysOf_mapDelete]
          exact fun hc => h3 (hadv ▸ hc.1)
        unfold keysOf at *
        simp only [List.map_cons, List.nodup_cons]
        exact ⟨hk, hn⟩
      · intro k hk
        rcases (hkcons k).mp hk with e | e
        · omega
        · exact hi.keys_lt k e.1
      · intro k hk
        rcases (hkcons k).mp hk with e | e
        · simp only; omega
        · have := hi.keys_lio k e.1
          simp only; omega
      · intro k hk
        rcases (hkcons k).mp hk with e | e
        · simp only; omega
        · have := hi.keys_lio k e.1
          simp only; omega
      · intro k hk
        rcases (hkcons k).mp hk with e | e
        · simp only; omega
        · exact hi.keys_ib k e.1
      · simp only; omega
    · simp only [hadv, if_false]
      have hkcons : ∀ k, k ∈ keysOf ((pn, now) :: h.receivedTimes) ↔
          k = pn ∨ k ∈ keysOf h.receivedTimes := by
        intro k; simp [keysOf]
      constructor
      · exact hi.lio_lt
      · exact hi.ib_lt
      · exact hi.lio_lt
      · intro x hx
        simp only [mem_ReceivedPacket] at hx
        rcases hx with e | e
        · omega
        · exact hi.hist_lt x e
      · intro x hx
        simp only [mem_ReceivedPacket] at hx
        rcases hx with e | e
        · simp only; omega
        · exact hi.hist_ge x e
      · have hn := hi.keys_nodup
        unfold keysOf at *
        simp only [List.map_cons, List.nodup_cons]
        exact ⟨h3, hn⟩
      · intro k hk
        rcases (hkcons k).mp hk with e | e
        · omega
        · exact hi.keys_lt k e
      · intro k hk
        rcases (hkcons k).mp hk with e | e
        · simp only; omega
        · exact hi.keys_lio k e
      · intro k hk
        rcases (hkcons k).mp hk with e | e
        · simp only; omega
        · exact hi.keys_lio k e
      · intro k hk
        rcases (hkcons k).mp hk with e | e
        · simp only; omega
        · exact hi.keys_ib k e
      · simp only; omega

theorem Inv_congr (h h2 : packetReceiver)
    (e1 : h2.largestInOrderObserved = h.largestInOrderObserved)
    (e2 : h2.largestObserved = h.largestObserved)
    (e3 : h2.ignorePacketsBelow = h.ignorePacketsBelow)
    (e4 : h2.packetHistory = h.packetHistory)
    (e5 : h2.receivedTimes = h.receivedTimes)
    (e6 : h2.lowestInReceivedTimes = h.lowestInReceivedTimes)
    (hi : Inv h) : Inv h2 := by
  obtain ⟨a1, a2, a3, a4, a5, a6, a7, a8⟩ := h
  obtain ⟨b1, b2, b3, b4, b5, b6, b7, b8⟩ := h2
  simp only at e1 e2 e3 e4 e5 e6
  subst e1 e2 e3 e4 e5 e6
  exact ⟨hi.lio_lt, hi.ib_lt, hi.floor_lt, hi.hist_lt, hi.hist_ge, hi.keys_nodup, hi.keys_lt,
    hi.keys_floor, hi.keys_lio, hi.keys_ib, hi.lio_le⟩

theorem Inv_ack (h : packetReceiver) (dequeue : Bool) (now : Nat) (h2 : packetReceiver)
    (res : Option sack) (hr : h.GetAckFrame dequeue now = some (h2, res)) (hi : Inv h) :
    Inv h2 := by
  obtain ⟨e1, e2, e3, e4, e5, e6⟩ := ackFrame_fields h dequeue now h2 res hr
  exact Inv_congr h h2 e1 e2 e3 e4 e5 e6 hi

theorem Inv_stop (fuel : Nat) (h : packetReceiver) (f : Nat) (h2 : packetReceiver)
    (hf : f < 4294967296) (hr : h.ReceivedStopWaiting fuel f = some h2) (hi : Inv h) :
    Inv h2 := by
  by_cases hle : f ≤ h.ignorePacketsBelow
  · rw [stopWaiting_noop fuel h f hle] at hr
    simp only [Option.some.injEq] at hr
    subst hr
    exact Inv_congr h _ rfl rfl rfl rfl rfl rfl hi
  · have hlt : h.ignorePacketsBelow < f := by omega
    obtain ⟨m1, hg1, hcase⟩ := stopWaiting_shape fuel h f h2 hlt hf hr
    have hm1 := (gcLoop_some fuel _ _ _ m1 hi.floor_lt (by omega) hg1).1
    have hlio := hi.lio_le
    have hliolt := hi.lio_lt
    have hk1 : ∀ k, k ∈ keysOf m1 → k ∈ keysOf h.receivedTimes ∧ f - 1 < k := by
      intro k hk
      rw [hm1, mem_keysOf_sweep] at hk
      have := hi.keys_floor k hk.1
      exact ⟨hk.1, by omega⟩
    rcases hcase with ⟨_, e⟩ | ⟨r, m2, hl, hg2, e⟩
    · subst e
      constructor
      · simp only; split <;> omega
      · simp only; omega
      · simp only; omega
      · intro x hx
        simp only [mem_DeleteBelow] at hx
        exact hi.hist_lt x hx.1
      · intro x hx
        simp only [mem_DeleteBelow] at hx
        have := hi.hist_ge x hx.1
        simp only; split <;> omega
      · simp only [hm1]
        exact nodup_sweep _ _ _ hi.keys_nodup
      · intro k hk
        exact hi.keys_lt k (hk1 k hk).1
      · intro k hk
        have := (hk1 k hk).2
        simp only; omega
      · intro k hk
        have := (hk1 k hk).2
        have := hi.keys_lio k (hk1 k hk).1
        simp only; split <;> omega
      · intro k hk
        exact (hk1 k hk).2
      · simp only; split <;> omega
    · have hmem := lastRange_mem _ r hl
      rw [mem_DeleteBelow] at hmem
      have hn := hi.hist_lt _ hmem.1
      have hm2 := (gcLoop_some fuel _ _ _ m2 (by omega) hn hg2).1
      have hk2 : ∀ k, k ∈ keysOf m2 → k ∈ keysOf h.receivedTimes ∧ r.LastPacketNumber < k := by
        intro k hk
        rw [hm2, mem_keysOf_sweep] at hk
        have := hk1 k hk.1
        exact ⟨this.1, by omega⟩
      subst e
      constructor
      · exact hn
      · exact hn
      · exact hn
      · intro x hx
        simp only [mem_DeleteBelow] at hx
        exact hi.hist_lt x hx.1.1
      · intro x hx
        simp only [mem_DeleteBelow] at hx
        exact hx.2
      · simp only [hm2, hm1]
        exact nodup_sweep _ _ _ (nodup_sweep _ _ _ hi.keys_nodup)
      · intro k hk
        exact hi.keys_lt k (hk2 k hk).1
      · intro k hk
        exact Nat.le_of_lt (hk2 k hk).2
      · intro k hk
        exact Nat.le_of_lt (hk2 k hk).2
      · intro k hk
        exact (hk2 k hk).2
      · simp only; omega

theorem Inv_step (h : packetReceiver) (e : Event) (h2 : packetReceiver) (hs : Step h e h2)
    (hi : Inv h) : Inv h2 := by
  cases hs with
  | packet pn now hpn => exact Inv_recv h pn now hpn hi
  | stopWaiting fuel f _ hf hr => exact Inv_stop fuel h f h2 hf hr hi
  | ackFrame dequeue now _ res hr => exact Inv_ack h dequeue now h2 res hr hi

theorem Inv_run (h : packetReceiver) (evs : List Event) (h2 : packetReceiver)
    (hr : Run h evs h2) (hi : Inv h) : Inv h2 := by
  induction hr with
  | nil => exact hi
  | snoc _ hs ih => exact Inv_step _ _ _ hs ih

theorem Inv_reachable (h : packetReceiver) (hr : Reachable h) : Inv h := by
  obtain ⟨evs, hrun⟩ := hr
  exact Inv_run _ evs h hrun Inv_fresh

/-- One call never lowers `largestObserved`, `largestInOrderObserved` or
`ignorePacketsBelow`, started from a tracker that satisfies the invariant. -/
theorem step_mono (h : packetReceiver) (e : Event) (h2 : packetReceiver) (hs : Step h e h2)
    (hi : Inv h) :
    h.largestObserved ≤ h2.largestObserved ∧
    h.largestInOrderObserved ≤ h2.largestInOrderObserved ∧
    h.ignorePacketsBelow ≤ h2.ignorePacketsBelow := by
  cases hs with
  | packet pn now hpn =>
    by_cases hr : Rejected h pn
    · rw [recv_rejected h pn now hr]; exact ⟨le_refl _, le_refl _, le_refl _⟩
    · rw [recv_admitted h pn now hpn hr]
      simp only
      refine ⟨by omega, ?_, le_refl _⟩
      split <;> omega
  | stopWaiting fuel f _ hf hr =>
    by_cases hle : f ≤ h.ignorePacketsBelow
    · rw [stopWaiting_noop fuel h f hle] at hr
      simp only [Option.some.injEq] at hr
      subst hr
      exact ⟨le_refl _, le_refl _, le_refl _⟩
    · have hlt : h.ignorePacketsBelow < f := by omega
      obtain ⟨m1, _, hcase⟩ := stopWaiting_shape fuel h f h2 hlt hf hr
      rcases hcase with ⟨_, e⟩ | ⟨r, m2, hl, _, e⟩
      · subst e
        simp only
        refine ⟨le_refl _, ?_, by omega⟩
        split <;> omega
      · have hmem := lastRange_mem _ r hl
        rw [mem_DeleteBelow] at hmem
        have := hi.hist_ge _ hmem.1
        subst e
        simp only
        exact ⟨le_refl _, this, by omega⟩
  | ackFrame dequeue now _ res hr =>
    obtain ⟨e1, e2, e3, _, _, _⟩ := ackFrame_fields h dequeue now h2 res hr
    rw [e1, e2, e3]
    exact ⟨le_refl _, le_refl _, le_refl _⟩

/-! ## The three rejections of `ReceivedPacket` -/

theorem recv_invalid (h : packetReceiver) (now : Nat) :
    h.ReceivedPacket 0 now = (h, some Err.errInvalidPacketNumber) := by
  simp [packetReceiver.ReceivedPacket]

theorem recv_stale (h : packetReceiver) (pn now : Nat) (h0 : pn ≠ 0)
    (h1 : pn ≤ h.ignorePacketsBelow) :
    h.ReceivedPacket pn now = (h, some Err.ErrPacketSmallerThanLastStopWaiting) := by
  simp [packetReceiver.ReceivedPacket, h0, h1]

theorem recv_duplicate (h : packetReceiver) (pn now : Nat) (h0 : pn ≠ 0)
    (h1 : ¬ pn ≤ h.ignorePacketsBelow)
    (h2 : pn ≤ h.largestInOrderObserved ∨ pn ∈ keysOf h.receivedTimes) :
    h.ReceivedPacket pn now = (h, some Err.ErrDuplicatePacket) := by
  rw [← hasKey_iff] at h2
  simp only [packetReceiver.ReceivedPacket, h0, h1, h2, if_true, if_false]

/-- A call that is not rejected returns `nil` or the overflow error. -/
theorem recv_admitted_result (h : packetReceiver) (pn now : Nat) (hr : ¬ Rejected h pn) :
    (h.ReceivedPacket pn now).2 = none ∨
      (h.ReceivedPacket pn now).2 = some Err.errTooManyOutstandingReceivedPackets := by
  unfold Rejected at hr
  rw [recv_result]
  have h0 : pn ≠ 0 := fun e => hr (Or.inl e)
  have h1 : ¬ pn ≤ h.ignorePacketsBelow := fun e => hr (Or.inr (Or.inl e))
  have h2 : ¬ (pn ≤ h.largestInOrderObserved ∨ pn ∈ keysOf h.receivedTimes) :=
    fun e => hr (Or.inr (Or.inr e))
  simp only [h0, h1, h2, if_false]
  split
  · exact Or.inr rfl
  · exact Or.inl rfl

/-- A call that returns `nil` or the overflow error was not rejected. -/
theorem not_rejected_of_result (h : packetReceiver) (pn now : Nat)
    (hres : (h.ReceivedPacket pn now).2 = none ∨
      (h.ReceivedPacket pn now).2 = some Err.errTooManyOutstandingReceivedPackets) :
    ¬ Rejected h pn := by
  intro hr
  unfold Rejected at hr
  by_cases h0 : pn = 0
  · subst h0
    rw [recv_invalid] at hres
    simp at hres
  · by_cases h1 : pn ≤ h.ignorePacketsBelow
    · rw [recv_stale h pn now h0 h1] at hres
      simp at hres
    · have h2 : pn ≤ h.largestInOrderObserved ∨ pn ∈ keysOf h.receivedTimes := by tauto
      rw [recv_duplicate h pn now h0 h1 h2] at hres
      simp at hres

/-- After an admission the packet number is a key of `receivedTimes`. -/
theorem recv_admitted_key (h : packetReceiver) (pn now : Nat) (hlt : pn < 4294967296)
    (hr : ¬ Rejected h pn) : pn ∈ keysOf (h.ReceivedPacket pn now).1.receivedTimes := by
  rw [recv_admitted h pn now hlt hr]
  simp [keysOf]

/-! ## Once admitted, always rejected -/

theorem covered_step (h : packetReceiver) (e : Event) (h2 : packetReceiver) (pn : Nat)
    (hs : Step h e h2) (hi : Inv h) (hc : Covered h pn) : Covered h2 pn := by
  have hmono := step_mono h e h2 hs hi
  unfold Covered at hc ⊢
  rcases hc with hc | hc | hc
  · exact Or.inl (by omega)
  · exact Or.inr (Or.inl (by omega))
  · cases hs with
    | packet q now hq =>
      by_cases hr : Rejected h q
      · rw [recv_rejected h q now hr]; exact Or.inr (Or.inr hc)
      · rw [recv_admitted h q now hq hr]
        simp only
        by_cases hadv : q = h.largestInOrderObserved + 1
        · simp only [hadv, if_true]
          by_cases hpn : pn = h.largestInOrderObserved
          · exact Or.inr (Or.inl (by omega))
          · refine Or.inr (Or.inr ?_)
            have : pn ∈ keysOf (mapDelete h.receivedTimes h.largestInOrderObserved) := by
              rw [mem_keysOf_mapDelete]; exact ⟨hc, hpn⟩
            simp only [keysOf, List.map_cons, List.mem_cons] at this ⊢
            exact Or.inr this
        · simp only [hadv, if_false]
          refine Or.inr (Or.inr ?_)
          simp only [keysOf, List.map_cons, List.mem_cons] at hc ⊢
          exact Or.inr hc
    | stopWaiting fuel f _ hf hr =>
      by_cases hle : f ≤ h.ignorePacketsBelow
      · rw [stopWaiting_noop fuel h f hle] at hr
        simp only [Option.some.injEq] at hr
        subst hr
        exact Or.inr (Or.inr hc)
      · have hlt : h.ignorePacketsBelow < f := by omega
        obtain ⟨m1, hg1, hcase⟩ := stopWaiting_shape fuel h f h2 hlt hf hr
        have hm1 := (gcLoop_some fuel _ _ _ m1 hi.floor_lt (by omega) hg1).1
        rcases hcase with ⟨_, e⟩ | ⟨r, m2, hl, hg2, e⟩
        · subst e
          simp only
          by_cases hpn : pn ≤ f - 1
          · exact Or.inl hpn
          · refine Or.inr (Or.inr ?_)
            rw [hm1, mem_keysOf_sweep]
            exact ⟨hc, fun hh => hpn hh.2⟩
        · have hmem := lastRange_mem _ r hl
          rw [mem_DeleteBelow] at hmem
          have hn := hi.hist_lt _ hmem.1
          have hm2 := (gcLoop_some fuel _ _ _ m2 (by omega) hn hg2).1
          subst e
          simp only
          by_cases hpn : pn ≤ r.LastPacketNumber
          · exact Or.inl hpn
          · refine Or.inr (Or.inr ?_)
            rw [hm2, mem_keysOf_sweep, hm1, mem_keysOf_sweep]
            exact ⟨⟨hc, fun hh => hpn (by omega)⟩, fun hh => hpn hh.2⟩
    | ackFrame dequeue now _ res hr =>
      obtain ⟨_, _, _, _, e5, _⟩ := ackFrame_fields h dequeue now h2 res hr
      rw [e5]
      exact Or.inr (Or.inr hc)

theorem covered_run (h : packetReceiver) (evs : List Event) (h2 : packetReceiver) (pn : Nat)
    (hr : Run h evs h2) (hi : Inv h) (hc : Covered h pn) : Covered h2 pn := by
  induction hr with
  | nil => exact hc
  | snoc hrun hs ih => exact covered_step _ _ _ pn hs (Inv_run _ _ _ hrun hi) ih

theorem run_mono (h : packetReceiver) (evs : List Event) (h2 : packetReceiver)
    (hr : Run h evs h2) (hi : Inv h) :
    h.largestObserved ≤ h2.largestObserved ∧
    h.largestInOrderObserved ≤ h2.largestInOrderObserved ∧
    h.ignorePacketsBelow ≤ h2.ignorePacketsBelow := by
  induction hr with
  | nil => exact ⟨le_refl _, le_refl _, le_refl _⟩
  | snoc hrun hs ih =>
    have := step_mono _ _ _ hs (Inv_run _ _ _ hrun hi)
    omega

/-- A run that contains no `ReceivedStopWaiting` call keeps
`largestInOrderObserved` at or below `largestObserved`. -/
theorem run_packets_only (s : packetReceiver) (evs : List Event) (h : packetReceiver)
    (hr : Run s evs h) (hs0 : s.largestInOrderObserved ≤ s.largestObserved)
    (hno : ∀ f, Event.stopWaiting f ∉ evs) :
    h.largestInOrderObserved ≤ h.largestObserved := by
  induction hr with
  | nil => exact hs0
  | @snoc h1 h2 evs e hrun hs ih =>
    have ih2 := ih (fun f hf => hno f (List.mem_append_left _ hf))
    cases hs with
    | packet pn now hpn =>
      by_cases hrej : Rejected h1 pn
      · rw [recv_rejected h1 pn now hrej]; exact ih2
      · rw [recv_admitted h1 pn now hpn hrej]
        simp only
        split <;> omega
    | stopWaiting fuel f _ hf hr2 =>
      exact absurd (List.mem_append_right _ (List.mem_singleton.mpr rfl)) (hno f)
    | ackFrame dequeue now _ res hr2 =>
      obtain ⟨e1, e2, _, _, _, _⟩ := ackFrame_fields h1 dequeue now h2 res hr2
      rw [e1, e2]; exact ih2

/-! ## The claims -/

/-- C1 (duplicate-freedom).  In a sequence of calls that starts from a fresh
tracker, once a call `ReceivedPacket(pn)` has admitted `pn` (it returned `nil`
or the overflow error, so the History insertion was reached), every later call
`ReceivedPacket(pn)`, after any further calls, is rejected with the stale-packet
error or the duplicate-packet error and leaves the tracker unchanged: `pn` is
admitted at most once. -/
theorem C1_admitted_at_most_once (evs : List Event) (h : packetReceiver) (pn now : Nat)
    (evs2 : List Event) (h2 : packetReceiver) (now2 : Nat)
    (hrun : Run newReceivedPacketHandler evs h)
    (hpn : pn < 4294967296)
    (hadm : (h.ReceivedPacket pn now).2 = none ∨
      (h.ReceivedPacket pn now).2 = some Err.errTooManyOutstandingReceivedPackets)
    (hrun2 : Run (h.ReceivedPacket pn now).1 evs2 h2) :
    h2.ReceivedPacket pn now2 = (h2, some Err.ErrPacketSmallerThanLastStopWaiting) ∨
    h2.ReceivedPacket pn now2 = (h2, some Err.ErrDuplicatePacket) := by
  have hnr := not_rejected_of_result h pn now hadm
  have h0 : pn ≠ 0 := fun e => hnr (Or.inl e)
  have hi : Inv h := Inv_run _ _ _ hrun Inv_fresh
  have hi1 : Inv (h.ReceivedPacket pn now).1 := Inv_recv h pn now hpn hi
  have hc1 : Covered (h.ReceivedPacket pn now).1 pn :=
    Or.inr (Or.inr (recv_admitted_key h pn now hpn hnr))
  have hc2 := covered_run _ _ _ pn hrun2 hi1 hc1
  by_cases h1 : pn ≤ h2.ignorePacketsBelow
  · exact Or.inl (recv_stale h2 pn now2 h0 h1)
  · refine Or.inr (recv_duplicate h2 pn now2 h0 h1 ?_)
    rcases hc2 with hc | hc
    · exact absurd hc h1
    · exact hc

/-- Witness for C1: on a fresh tracker packet 3 is admitted; after the packets
1 and 2 a further packet 3 is rejected. -/
theorem C1_admitted_at_most_once_witness :
    afterPackets312.ReceivedPacket 3 14 =
      (afterPackets312, some Err.ErrPacketSmallerThanLastStopWaiting) ∨
    afterPackets312.ReceivedPacket 3 14 = (afterPackets312, some Err.ErrDuplicatePacket) :=
  C1_admitted_at_most_once [] newReceivedPacketHandler 3 10
    ([] ++ [Event.packet 1 11
        ((newReceivedPacketHandler.ReceivedPacket 3 10).1.ReceivedPacket 1 11).2] ++
      [Event.packet 2 12
        (((newReceivedPacketHandler.ReceivedPacket 3 10).1.ReceivedPacket 1 11).1.ReceivedPacket
          2 12).2])
    afterPackets312 14 (Run.nil _) (by decide) (Or.inl (by decide))
    (Run.snoc (Run.snoc (Run.nil _) (Step.packet _ 1 11 (by decide)))
      (Step.packet _ 2 12 (by decide)))

/-- C2 (monotonicity).  From a tracker reachable from a fresh one, no call, and
no sequence of calls, lowers `largestObserved`, `largestInOrderObserved` or
`ignorePacketsBelow`. -/
theorem C2_monotone (h : packetReceiver) (hr : Reachable h) :
    (∀ e h2, Step h e h2 →
      h.largestObserved ≤ h2.largestObserved ∧
      h.largestInOrderObserved ≤ h2.largestInOrderObserved ∧
      h.ignorePacketsBelow ≤ h2.ignorePacketsBelow) ∧
    (∀ evs h2, Run h evs h2 →
      h.largestObserved ≤ h2.largestObserved ∧
      h.largestInOrderObserved ≤ h2.largestInOrderObserved ∧
      h.ignorePacketsBelow ≤ h2.ignorePacketsBelow) :=
  ⟨fun e h2 hs => step_mono h e h2 hs (Inv_reachable h hr),
   fun evs h2 hrun => run_mono h evs h2 hrun (Inv_reachable h hr)⟩

/-- Witness for C2: the call `ReceivedPacket(1)` on a fresh tracker lowers none
of the three fields. -/
theorem C2_monotone_witness :
    newReceivedPacketHandler.largestObserved ≤
        (newReceivedPacketHandler.ReceivedPacket 1 0).1.largestObserved ∧
    newReceivedPacketHandler.largestInOrderObserved ≤
        (newReceivedPacketHandler.ReceivedPacket 1 0).1.largestInOrderObserved ∧
    newReceivedPacketHandler.ignorePacketsBelow ≤
        (newReceivedPacketHandler.ReceivedPacket 1 0).1.ignorePacketsBelow :=
  (C2_monotone newReceivedPacketHandler ⟨[], Run.nil _⟩).1 _ _
    (Step.packet newReceivedPacketHandler 1 0 (by decide))

/-- C3, counterexample.  `ReceivedStopWaiting(5)` on a fresh tracker returns and
leaves `largestInOrderObserved = 4` above `largestObserved = 0`. -/
theorem C3_counterexample :
    newReceivedPacketHandler.ReceivedStopWaiting 6 5 = some afterStopWaiting5 ∧
    Reachable afterStopWaiting5 ∧
    ¬ afterStopWaiting5.largestInOrderObserved ≤ afterStopWaiting5.largestObserved :=
  ⟨by decide,
   ⟨[] ++ [Event.stopWaiting 5],
    Run.snoc (Run.nil _) (Step.stopWaiting _ 6 5 _ (by decide) (by decide))⟩,
   by decide⟩

/-- C3, amended.  In every tracker reachable from a fresh one,
`largestInOrderObserved` is at most the larger of `largestObserved` and
`ignorePacketsBelow`; and in every tracker reached through `ReceivedPacket` and
`GetAckFrame` calls only, `largestInOrderObserved ≤ largestObserved`. -/
theorem C3_in_order_bound (evs : List Event) (h : packetReceiver)
    (hrun : Run newReceivedPacketHandler evs h) :
    h.largestInOrderObserved ≤ max h.largestObserved h.ignorePacketsBelow ∧
    ((∀ f, Event.stopWaiting f ∉ evs) → h.largestInOrderObserved ≤ h.largestObserved) :=
  ⟨(Inv_run _ _ _ hrun Inv_fresh).lio_le,
   run_packets_only _ evs h hrun (le_refl _)⟩

/-- Witness for C3 (amended): after `ReceivedPacket(1)` on a fresh tracker. -/
theorem C3_in_order_bound_witness :
    (newReceivedPacketHandler.ReceivedPacket 1 0).1.largestInOrderObserved ≤
      (newReceivedPacketHandler.ReceivedPacket 1 0).1.largestObserved :=
  (C3_in_order_bound ([] ++ [Event.packet 1 0 (newReceivedPacketHandler.ReceivedPacket 1 0).2])
    _ (Run.snoc (Run.nil _) (Step.packet _ 1 0 (by decide)))).2
    (by intro f hf; simp at hf)

/-- C4 (rejection classification of `ReceivedPacket`).  For every tracker and
every `uint32` packet number: 0 fails with the invalid-number error; otherwise a
number `≤ ignorePacketsBelow` fails with the stale-packet error; otherwise a
number `≤ largestInOrderObserved` or already a key of `receivedTimes` fails with
the duplicate-packet error; in these three cases the whole tracker is returned
unchanged; in every other case the packet is admitted: the call returns `nil` or
the overflow error and History holds the number afterwards. -/
theorem C4_rejection_classification (h : packetReceiver) (pn now : Nat)
    (hpn : pn < 4294967296) :
    (pn = 0 → h.ReceivedPacket pn now = (h, some Err.errInvalidPacketNumber)) ∧
    (pn ≠ 0 → pn ≤ h.ignorePacketsBelow →
      h.ReceivedPacket pn now = (h, some Err.ErrPacketSmallerThanLastStopWaiting)) ∧
    (pn ≠ 0 → ¬ pn ≤ h.ignorePacketsBelow →
      (pn ≤ h.largestInOrderObserved ∨ pn ∈ keysOf h.receivedTimes) →
      h.ReceivedPacket pn now = (h, some Err.ErrDuplicatePacket)) ∧
    (pn ≠ 0 → ¬ pn ≤ h.ignorePacketsBelow →
      ¬ (pn ≤ h.largestInOrderObserved ∨ pn ∈ keysOf h.receivedTimes) →
      ((h.ReceivedPacket pn now).2 = none ∨
        (h.ReceivedPacket pn now).2 = some Err.errTooManyOutstandingReceivedPackets) ∧
      pn ∈ (h.ReceivedPacket pn now).1.packetHistory.nums) := by
  refine ⟨?_, ?_, ?_, ?_⟩
  · intro h0
    subst h0
    exact recv_invalid h now
  · exact recv_stale h pn now
  · exact recv_duplicate h pn now
  · intro h0 h1 h2
    have hnr : ¬ Rejected h pn := by
      unfold Rejected
      tauto
    refine ⟨recv_admitted_result h pn now hnr, ?_⟩
    rw [recv_admitted h pn now hpn hnr]
    simp only
    split
    · rw [mem_DeleteBelow, mem_ReceivedPacket]
      exact ⟨Or.inl rfl, le_refl _⟩
    · rw [mem_ReceivedPacket]
      exact Or.inl rfl

/-- Witness for C4: on the tracker left by the packets 3, 1, 2 the packet 2 is
a duplicate (it is `≤ largestInOrderObserved = 2`). -/
theorem C4_rejection_classification_witness :
    afterPackets312.ReceivedPacket 2 20 = (afterPackets312, some Err.ErrDuplicatePacket) :=
  (C4_rejection_classification afterPackets312 2 20 (by decide)).2.2.1
    (by decide) (by decide) (Or.inl (by decide))

/-- C5 (immediate repetition).  For every tracker and every `uint32` packet
number, if `ReceivedPacket(pn)` returns `nil` then the same call made again at
once fails with the duplicate-packet error and leaves the tracker unchanged; on
a fresh tracker, for every `pn ≥ 1`, the first call returns `nil` and the second
fails with the duplicate-packet error. -/
theorem C5_repeat_is_duplicate (h : packetReceiver) (pn now now2 : Nat)
    (hpn : pn < 4294967296) :
    ((h.ReceivedPacket pn now).2 = none →
      (h.ReceivedPacket pn now).1.ReceivedPacket pn now2 =
        ((h.ReceivedPacket pn now).1, some Err.ErrDuplicatePacket)) ∧
    (1 ≤ pn →
      (newReceivedPacketHandler.ReceivedPacket pn now).2 = none ∧
      (newReceivedPacketHandler.ReceivedPacket pn now).1.ReceivedPacket pn now2 =
        ((newReceivedPacketHandler.ReceivedPacket pn now).1, some Err.ErrDuplicatePacket)) := by
  have key : ∀ g : packetReceiver, (g.ReceivedPacket pn now).2 = none →
      (g.ReceivedPacket pn now).1.ReceivedPacket pn now2 =
        ((g.ReceivedPacket pn now).1, some Err.ErrDuplicatePacket) := by
    intro g hres
    have hnr := not_rejected_of_result g pn now (Or.inl hres)
    have hkey := recv_admitted_key g pn now hpn hnr
    have h0 : pn ≠ 0 := fun e => hnr (Or.inl e)
    have h1 : ¬ pn ≤ g.ignorePacketsBelow := fun e => hnr (Or.inr (Or.inl e))
    have hib : (g.ReceivedPacket pn now).1.ignorePacketsBelow = g.ignorePacketsBelow := by
      rw [recv_admitted g pn now hpn hnr]
    exact recv_duplicate _ pn now2 h0 (by rw [hib]; exact h1) (Or.inr hkey)
  refine ⟨key h, ?_⟩
  intro h1
  have hfresh : (newReceivedPacketHandler.ReceivedPacket pn now).2 = none := by
    have hnr : ¬ Rejected newReceivedPacketHandler pn := by
      unfold Rejected
      simp only [newReceivedPacketHandler, keysOf, List.map_nil, List.not_mem_nil,
        Nat.le_zero_eq, or_false, or_self]
      omega
    rw [recv_result]
    have hlen : (newReceivedPacketHandler.ReceivedPacket pn now).1.receivedTimes.length = 1 := by
      rw [recv_admitted _ pn now hpn hnr]
      simp only [newReceivedPacketHandler, mapDelete, List.filter_nil]
      split <;> rfl
    unfold Rejected at hnr
    have h0 : pn ≠ 0 := fun e => hnr (Or.inl e)
    have h1 : ¬ pn ≤ newReceivedPacketHandler.ignorePacketsBelow :=
      fun e => hnr (Or.inr (Or.inl e))
    have h2 : ¬ (pn ≤ newReceivedPacketHandler.largestInOrderObserved ∨
        pn ∈ keysOf newReceivedPacketHandler.receivedTimes) :=
      fun e => hnr (Or.inr (Or.inr e))
    simp only [h0, h1, h2, if_false, hlen]
    rfl
  exact ⟨hfresh, key _ hfresh⟩

/-- Witness for C5: packet 7 twice on a fresh tracker. -/
theorem C5_repeat_is_duplicate_witness :
    (newReceivedPacketHandler.ReceivedPacket 7 1).2 = none ∧
    (newReceivedPacketHandler.ReceivedPacket 7 1).1.ReceivedPacket 7 2 =
      ((newReceivedPacketHandler.ReceivedPacket 7 1).1, some Err.ErrDuplicatePacket) :=
  (C5_repeat_is_duplicate newReceivedPacketHandler 7 1 2 (by decide)).2 (by decide)

/-- The low-water mark installed by a returning `ReceivedStopWaiting(f)` is at
least `f - 1` when `f ≥ 1`, on each of its three paths. -/
theorem stopWaiting_ignoreBelow (fuel : Nat) (h : packetReceiver) (f : Nat)
    (h2 : packetReceiver) (hf : f < 4294967296)
    (hr : h.ReceivedStopWaiting fuel f = some h2) : f ≤ h2.ignorePacketsBelow + 1 := by
  by_cases hle : f ≤ h.ignorePacketsBelow
  · rw [stopWaiting_noop fuel h f hle] at hr
    simp only [Option.some.injEq] at hr
    subst hr
    simp only
    omega
  · have hlt : h.ignorePacketsBelow < f := by omega
    obtain ⟨m1, _, hcase⟩ := stopWaiting_shape fuel h f h2 hlt hf hr
    rcases hcase with ⟨_, e⟩ | ⟨r, m2, hl, _, e⟩
    · subst e
      simp only
      omega
    · have hmem := lastRange_mem _ r hl
      rw [mem_DeleteBelow] at hmem
      subst e
      simp only
      omega

/-- The call `ReceivedStopWaiting(f)` returns, given fuel `4294967296`, whenever
History holds only `uint32` numbers and does not hold `4294967295`. -/
theorem stopWaiting_returns (h : packetReceiver) (f : Nat) (hf : f < 4294967296)
    (hh : ∀ x ∈ h.packetHistory.nums, x < 4294967295) :
    ∃ h2, h.ReceivedStopWaiting 4294967296 f = some h2 := by
  by_cases hle : f ≤ h.ignorePacketsBelow
  · exact ⟨_, stopWaiting_noop _ h f hle⟩
  · have hsub : (f + 4294967296 - 1) % 4294967296 = f - 1 := by omega
    have hg1 := gcLoop_enough (f - 1) 4294967296 h.lowestInReceivedTimes h.receivedTimes
      (by omega) (by omega) (by omega)
    unfold packetReceiver.ReceivedStopWaiting
    simp only [ge_iff_le, hle, if_false, hsub, packetReceiver.garbageCollectReceivedTimes, hg1]
    have fin : ∀ r, (recvHistory.DeleteBelow h.packetHistory f).GetAckRanges.getLast? = some r →
        gcLoop 4294967296 (f - 1) r.LastPacketNumber
          (sweep h.lowestInReceivedTimes (f - 1) h.receivedTimes) =
        some (sweep (f - 1) r.LastPacketNumber
          (sweep h.lowestInReceivedTimes (f - 1) h.receivedTimes)) := by
      intro r hl
      have hmem := lastRange_mem _ r hl
      rw [mem_DeleteBelow] at hmem
      have hn := hh _ hmem.1
      exact gcLoop_enough r.LastPacketNumber 4294967296 (f - 1) _ (by omega) (by omega) (by omega)
    by_cases hfl : f > h.largestInOrderObserved
    · simp only [hfl, if_true]
      cases hl : (recvHistory.DeleteBelow h.packetHistory f).GetAckRanges.getLast? with
      | none => exact ⟨_, rfl⟩
      | some r =>
        simp only [fin r hl]
        exact ⟨_, rfl⟩
    · simp only [hfl, if_false]
      cases hl : (recvHistory.DeleteBelow h.packetHistory f).GetAckRanges.getLast? with
      | none => exact ⟨_, rfl⟩
      | some r =>
        simp only [fin r hl]
        exact ⟨_, rfl⟩

/-- C6 (stale after a low-water mark).  For every tracker, every `uint32` value
`f` and every packet number `pn` with `1 ≤ pn < f`: whenever
`ReceivedStopWaiting(f)` returns (on the no-op path, with `ignorePacketsBelow`
raised to `f - 1`, or with it collapsed to the upper bound of the last History
range), the call `ReceivedPacket(pn)` on the resulting tracker fails with the
stale-packet error and leaves it unchanged.  The call does return when History
holds no number `≥ 4294967295`. -/
theorem C6_stale_after_low_water_mark (h : packetReceiver) (f pn now : Nat)
    (hf : f < 4294967296) (h1 : 1 ≤ pn) (hlt : pn < f) :
    (∀ fuel h2, h.ReceivedStopWaiting fuel f = some h2 →
      h2.ReceivedPacket pn now = (h2, some Err.ErrPacketSmallerThanLastStopWaiting)) ∧
    ((∀ x ∈ h.packetHistory.nums, x < 4294967295) →
      ∃ h2, h.ReceivedStopWaiting 4294967296 f = some h2) := by
  refine ⟨?_, stopWaiting_returns h f hf⟩
  intro fuel h2 hr
  have hib := stopWaiting_ignoreBelow fuel h f h2 hf hr
  exact recv_stale h2 pn now (by omega) (by omega)

/-- Witness for C6: `ReceivedStopWaiting(3)` on a fresh tracker, then packet
2. -/
theorem C6_stale_after_low_water_mark_witness :
    afterStopWaiting3.ReceivedPacket 2 9 =
      (afterStopWaiting3, some Err.ErrPacketSmallerThanLastStopWaiting) :=
  (C6_stale_after_low_water_mark newReceivedPacketHandler 3 2 9
    (by decide) (by decide) (by decide)).1 4 afterStopWaiting3 (by decide)

/-- C7 (admission postcondition of `ReceivedPacket`).  For every tracker and
every `uint32` packet number `pn ≥ 1` above `ignorePacketsBelow`, above
`largestInOrderObserved` and not a key of `receivedTimes`, after the call:
History holds `pn`; `stateChanged` is true; `currentAckFrame` is `nil`;
`largestObserved` is the maximum of its old value and `pn`; `pn` is a key of
`receivedTimes`; `ignorePacketsBelow` is unchanged; if `pn` is the old
`largestInOrderObserved + 1` then `largestInOrderObserved = pn`, History holds
no number below `pn` and `pn - 1` is not a key of `receivedTimes`; otherwise
`largestInOrderObserved` is unchanged; and `lowestInReceivedTimes` equals the
new `largestInOrderObserved`. -/
theorem C7_admission_postcondition (h : packetReceiver) (pn now : Nat)
    (hpn : pn < 4294967296) (h1 : 1 ≤ pn) (h2 : h.ignorePacketsBelow < pn)
    (h3 : h.largestInOrderObserved < pn) (h4 : pn ∉ keysOf h.receivedTimes) :
    pn ∈ (h.ReceivedPacket pn now).1.packetHistory.nums ∧
    (h.ReceivedPacket pn now).1.stateChanged = true ∧
    (h.ReceivedPacket pn now).1.currentAckFrame = none ∧
    (h.ReceivedPacket pn now).1.largestObserved = max h.largestObserved pn ∧
    pn ∈ keysOf (h.ReceivedPacket pn now).1.receivedTimes ∧
    (h.ReceivedPacket pn now).1.ignorePacketsBelow = h.ignorePacketsBelow ∧
    (pn = h.largestInOrderObserved + 1 →
      (h.ReceivedPacket pn now).1.largestInOrderObserved = pn ∧
      (∀ x ∈ (h.ReceivedPacket pn now).1.packetHistory.nums, pn ≤ x) ∧
      pn - 1 ∉ keysOf (h.ReceivedPacket pn now).1.receivedTimes) ∧
    (pn ≠ h.largestInOrderObserved + 1 →
      (h.ReceivedPacket pn now).1.largestInOrderObserved = h.largestInOrderObserved) ∧
    (h.ReceivedPacket pn now).1.lowestInReceivedTimes =
      (h.ReceivedPacket pn now).1.largestInOrderObserved := by
  have hnr : ¬ Rejected h pn := by
    unfold Rejected
    intro hc
    rcases hc with hc | hc | hc | hc
    · omega
    · omega
    · omega
    · exact h4 hc
  rw [recv_admitted h pn now hpn hnr]
  simp only
  by_cases hadv : pn = h.largestInOrderObserved + 1
  · simp only [hadv, if_true, true_implies, ne_eq, not_true_eq_false, false_implies, and_true]
    refine ⟨?_, trivial, trivial, trivial, ?_, trivial, trivial, ?_, ?_⟩
    · rw [mem_DeleteBelow, mem_ReceivedPacket]
      exact ⟨Or.inl rfl, le_refl _⟩
    · simp [keysOf]
    · intro x hx
      rw [mem_DeleteBelow] at hx
      exact hx.2
    · have hd : h.largestInOrderObserved ∉
          keysOf (mapDelete h.receivedTimes h.largestInOrderObserved) := by
        rw [mem_keysOf_mapDelete]
        exact fun hc => hc.2 rfl
      simp only [keysOf, List.map_cons, List.mem_cons, Nat.add_sub_cancel, not_or] at hd ⊢
      exact ⟨by omega, hd⟩
  · simp only [hadv, if_false, false_implies, ne_eq, not_false_eq_true, true_implies, true_and]
    refine ⟨?_, ?_, trivial⟩
    · rw [mem_ReceivedPacket]
      exact Or.inl rfl
    · simp [keysOf]

/-- Witness for C7: packet 4 on the tracker left by the packets 3, 1, 2 (where
`largestInOrderObserved = 2`, so 4 is not the next in-order number). -/
theorem C7_admission_postcondition_witness :
    4 ∈ (afterPackets312.ReceivedPacket 4 20).1.packetHistory.nums ∧
    (afterPackets312.ReceivedPacket 4 20).1.largestObserved = 4 ∧
    (afterPackets312.ReceivedPacket 4 20).1.largestInOrderObserved = 2 :=
  have w := C7_admission_postcondition afterPackets312 4 20
    (by decide) (by decide) (by decide) (by decide) (by decide)
  ⟨w.1, w.2.2.2.1, w.2.2.2.2.2.2.2.1 (by decide)⟩

/-! ## Floods of non-contiguous packet numbers -/

/-- Packets that are all new, all `≥ 2`, arriving while `largestInOrderObserved`
and `ignorePacketsBelow` are 0: every one is admitted, none advances the
in-order prefix, and each call adds one entry to `receivedTimes`. -/
theorem recvAll_gaps (cs : List (Nat × Nat)) : ∀ h : packetReceiver,
    h.largestInOrderObserved = 0 → h.ignorePacketsBelow = 0 →
    (cs.map Prod.fst).Nodup →
    (∀ c ∈ cs, 2 ≤ c.1 ∧ c.1 < 4294967296 ∧ c.1 ∉ keysOf h.receivedTimes) →
    (recvAll h cs).2 = overflowFrom h.receivedTimes.length cs.length ∧
    (∀ x ∈ h.packetHistory.nums, x ∈ (recvAll h cs).1.packetHistory.nums) ∧
    (∀ k ∈ keysOf h.receivedTimes, k ∈ keysOf (recvAll h cs).1.receivedTimes) ∧
    (∀ c ∈ cs, c.1 ∈ (recvAll h cs).1.packetHistory.nums ∧
      c.1 ∈ keysOf (recvAll h cs).1.receivedTimes) := by
  induction cs with
  | nil =>
    intro h _ _ _ _
    simp [recvAll, overflowFrom]
  | cons c cs ih =>
    intro h hlio hib hnd hall
    have hc := hall c (List.mem_cons_self _ _)
    have hnr : ¬ Rejected h c.1 := by
      unfold Rejected
      intro hr
      rcases hr with hr | hr | hr | hr
      · omega
      · omega
      · omega
      · exact hc.2.2 hr
    have hadv : ¬ c.1 = h.largestInOrderObserved + 1 := by omega
    have hst := recv_admitted h c.1 c.2 hc.2.1 hnr
    simp only [hadv, if_false] at hst
    have hres := recv_result h c.1 c.2
    have h0 : c.1 ≠ 0 := by omega
    have h1 : ¬ c.1 ≤ h.ignorePacketsBelow := by omega
    have h2 : ¬ (c.1 ≤ h.largestInOrderObserved ∨ c.1 ∈ keysOf h.receivedTimes) := by
      intro hh
      rcases hh with hh | hh
      · omega
      · exact hc.2.2 hh
    simp only [h0, h1, h2, if_false] at hres
    rw [hst] at hres
    simp only [List.length_cons] at hres
    simp only [List.map_cons, List.nodup_cons] at hnd
    have hall2 : ∀ d ∈ cs, 2 ≤ d.1 ∧ d.1 < 4294967296 ∧
        d.1 ∉ keysOf (h.ReceivedPacket c.1 c.2).1.receivedTimes := by
      intro d hd
      have hd2 := hall d (List.mem_cons_of_mem _ hd)
      refine ⟨hd2.1, hd2.2.1, ?_⟩
      rw [hst]
      simp only [keysOf, List.map_cons, List.mem_cons, not_or]
      refine ⟨?_, hd2.2.2⟩
      intro e
      exact hnd.1 (e ▸ List.mem_map_of_mem Prod.fst hd)
    have ih2 := ih (h.ReceivedPacket c.1 c.2).1 (by rw [hst]; exact hlio) (by rw [hst]; exact hib)
      hnd.2 hall2
    have hlen : (h.ReceivedPacket c.1 c.2).1.receivedTimes.length =
        h.receivedTimes.length + 1 := by
      rw [hst]; rfl
    obtain ⟨r1, r2, r3, r4⟩ := ih2
    refine ⟨?_, ?_, ?_, ?_⟩
    · simp only [recvAll, List.length_cons, overflowFrom, r1, hlen, hres]
    · intro x hx
      simp only [recvAll]
      apply r2
      rw [hst]
      simp only [mem_ReceivedPacket]
      exact Or.inr hx
    · intro k hk
      simp only [recvAll]
      apply r3
      rw [hst]
      simp only [keysOf, List.map_cons, List.mem_cons]
      exact Or.inr hk
    · intro d hd
      simp only [recvAll]
      rcases List.mem_cons.mp hd with e | e
      · subst e
        constructor
        · apply r2
          rw [hst]
          simp [mem_ReceivedPacket]
        · apply r3
          rw [hst]
          simp [keysOf]
      · exact r4 d e

theorem overflowFrom_quiet (n : Nat) : ∀ m : Nat, m + n ≤ 1000 →
    overflowFrom m n = List.replicate n none := by
  induction n with
  | zero => intro m _; rfl
  | succ k ih =>
    intro m hm
    have h1 : ¬ (m + 1) % 4294967296 > 1000 := by omega
    simp only [overflowFrom, h1, if_false, List.replicate_succ, ih (m + 1) (by omega)]

theorem overflowFrom_snoc (n : Nat) : ∀ m : Nat,
    overflowFrom m (n + 1) =
      overflowFrom m n ++
        [if (m + n + 1) % 4294967296 > 1000 then
          some Err.errTooManyOutstandingReceivedPackets else none] := by
  induction n with
  | zero => intro m; simp [overflowFrom]
  | succ k ih =>
    intro m
    have e : m + 1 + k + 1 = m + (k + 1) + 1 := by omega
    rw [overflowFrom, ih (m + 1), e]
    rfl

theorem overflowFrom_1001 :
    overflowFrom 0 1001 =
      List.replicate 1000 none ++ [some Err.errTooManyOutstandingReceivedPackets] := by
  rw [overflowFrom_snoc 1000 0, overflowFrom_quiet 1000 0 (by omega)]
  rfl

theorem evenCalls_nodup : (evenCalls.map Prod.fst).Nodup := by
  unfold evenCalls
  rw [List.map_map]
  refine List.Nodup.map ?_ (List.nodup_range 1001)
  intro a b hab
  simp only [Function.comp_apply] at hab
  omega

theorem evenCalls_bounds : ∀ c ∈ evenCalls, 2 ≤ c.1 ∧ c.1 < 4294967296 := by
  intro c hc
  unfold evenCalls at hc
  rw [List.mem_map] at hc
  obtain ⟨i, hi, e⟩ := hc
  rw [List.mem_range] at hi
  subst e
  simp only
  omega

theorem evenCalls_last : evenCalls.getLast? = some (2002, 0) := by
  unfold evenCalls
  rw [List.getLast?_map, List.getLast?_range]
  rfl

/-- C8 (overflow signalling).  On a fresh tracker, for every list of 1001 calls
`ReceivedPacket` with pairwise distinct `uint32` packet numbers, all `≥ 2`: the
first 1000 calls return `nil`, the 1001st returns the overflow error, and after
it the 1001st number is in History and is a key of `receivedTimes`. -/
theorem C8_overflow_signalled (cs : List (Nat × Nat)) (hlen : cs.length = 1001)
    (hnd : (cs.map Prod.fst).Nodup) (hge : ∀ c ∈ cs, 2 ≤ c.1 ∧ c.1 < 4294967296) :
    (recvAll newReceivedPacketHandler cs).2 =
      List.replicate 1000 none ++ [some Err.errTooManyOutstandingReceivedPackets] ∧
    ∀ c, cs.getLast? = some c →
      c.1 ∈ (recvAll newReceivedPacketHandler cs).1.packetHistory.nums ∧
      c.1 ∈ keysOf (recvAll newReceivedPacketHandler cs).1.receivedTimes := by
  have hall : ∀ c ∈ cs, 2 ≤ c.1 ∧ c.1 < 4294967296 ∧
      c.1 ∉ keysOf newReceivedPacketHandler.receivedTimes := by
    intro c hc
    exact ⟨(hge c hc).1, (hge c hc).2, by simp [newReceivedPacketHandler, keysOf]⟩
  obtain ⟨r1, _, _, r4⟩ := recvAll_gaps cs newReceivedPacketHandler rfl rfl hnd hall
  refine ⟨?_, ?_⟩
  · rw [r1, hlen]
    exact overflowFrom_1001
  · intro c hc
    exact r4 c (List.mem_of_getLast?_eq_some hc)

/-- Witness for C8: the calls `ReceivedPacket(2)`, `ReceivedPacket(4)`, ...,
`ReceivedPacket(2002)` on a fresh tracker. -/
theorem C8_overflow_signalled_witness :
    (recvAll newReceivedPacketHandler evenCalls).2 =
      List.replicate 1000 none ++ [some Err.errTooManyOutstandingReceivedPackets] ∧
    2002 ∈ (recvAll newReceivedPacketHandler evenCalls).1.packetHistory.nums ∧
    2002 ∈ keysOf (recvAll newReceivedPacketHandler evenCalls).1.receivedTimes :=
  have w := C8_overflow_signalled evenCalls (by simp [evenCalls]) evenCalls_nodup
    evenCalls_bounds
  ⟨w.1, w.2 (2002, 0) evenCalls_last⟩

/-! ## Boundedness of `receivedTimes` -/

/-- The map of a tracker that satisfies the invariant has fewer than `2^32`
entries, so the conversion `uint32(len(receivedTimes))` does not wrap. -/
theorem Inv_length_lt (h : packetReceiver) (hi : Inv h) :
    h.receivedTimes.length < 4294967296 := by
  have hnd : (0 :: keysOf h.receivedTimes).Nodup := by
    rw [List.nodup_cons]
    refine ⟨?_, hi.keys_nodup⟩
    intro h0
    have := hi.keys_ib 0 h0
    omega
  have hlt : ∀ x ∈ 0 :: keysOf h.receivedTimes, x < 4294967296 := by
    intro x hx
    rcases List.mem_cons.mp hx with e | e
    · omega
    · exact hi.keys_lt x e
  have := length_le_of_nodup_lt _ _ hnd hlt
  simp only [List.length_cons, keysOf, List.length_map] at this
  omega

/-- A call of `ReceivedPacket` that admits its packet and leaves more than 1000
entries in `receivedTimes` returns the overflow error. -/
theorem overflow_of_admitted (h : packetReceiver) (pn now : Nat) (hi : Inv h)
    (hpn : pn < 4294967296) (hnr : ¬ Rejected h pn)
    (hlen : (h.ReceivedPacket pn now).1.receivedTimes.length > 1000) :
    (h.ReceivedPacket pn now).2 = some Err.errTooManyOutstandingReceivedPackets := by
  have hlt := Inv_length_lt _ (Inv_recv h pn now hpn hi)
  rw [recv_result]
  unfold Rejected at hnr
  have h0 : pn ≠ 0 := fun e => hnr (Or.inl e)
  have h1 : ¬ pn ≤ h.ignorePacketsBelow := fun e => hnr (Or.inr (Or.inl e))
  have h2 : ¬ (pn ≤ h.largestInOrderObserved ∨ pn ∈ keysOf h.receivedTimes) :=
    fun e => hnr (Or.inr (Or.inr e))
  simp only [h0, h1, h2, if_false, Nat.mod_eq_of_lt hlt, hlen, if_true]

/-- No call lets `receivedTimes` grow, unless it is a `ReceivedPacket` call that
returns the overflow error. -/
theorem step_length (h : packetReceiver) (e : Event) (h2 : packetReceiver) (hs : Step h e h2)
    (hi : Inv h) (hlen : h.receivedTimes.length ≤ 1000)
    (hq : ∀ pn now, e ≠ Event.packet pn now (some Err.errTooManyOutstandingReceivedPackets)) :
    h2.receivedTimes.length ≤ 1000 := by
  cases hs with
  | packet pn now hpn =>
    by_cases hr : Rejected h pn
    · rw [recv_rejected h pn now hr]; exact hlen
    · by_contra hgt
      have := overflow_of_admitted h pn now hi hpn hr (by omega)
      exact hq pn now (by rw [this])
  | stopWaiting fuel f _ hf hr =>
    by_cases hle : f ≤ h.ignorePacketsBelow
    · rw [stopWaiting_noop fuel h f hle] at hr
      simp only [Option.some.injEq] at hr
      subst hr
      exact hlen
    · have hlt : h.ignorePacketsBelow < f := by omega
      obtain ⟨m1, hg1, hcase⟩ := stopWaiting_shape fuel h f h2 hlt hf hr
      have hm1 := (gcLoop_some fuel _ _ _ m1 hi.floor_lt (by omega) hg1).1
      have hl1 : m1.length ≤ h.receivedTimes.length := by
        rw [hm1]; exact length_sweep_le _ _ _
      rcases hcase with ⟨_, e⟩ | ⟨r, m2, hl, hg2, e⟩
      · subst e
        simp only
        omega
      · have hmem := lastRange_mem _ r hl
        rw [mem_DeleteBelow] at hmem
        have hn := hi.hist_lt _ hmem.1
        have hm2 := (gcLoop_some fuel _ _ _ m2 (by omega) hn hg2).1
        have hl2 : m2.length ≤ m1.length := by
          rw [hm2]; exact length_sweep_le _ _ _
        subst e
        simp only
        omega
  | ackFrame dequeue now _ res hr =>
    obtain ⟨_, _, _, _, e5, _⟩ := ackFrame_fields h dequeue now h2 res hr
    rw [e5]
    exact hlen

theorem run_length (s : packetReceiver) (evs : List Event) (h : packetReceiver)
    (hr : Run s evs h) (hi : Inv s) (hlen : s.receivedTimes.length ≤ 1000)
    (hq : ∀ pn now,
      Event.packet pn now (some Err.errTooManyOutstandingReceivedPackets) ∉ evs) :
    h.receivedTimes.length ≤ 1000 := by
  induction hr with
  | nil => exact hlen
  | @snoc h1 h2 evs e hrun hs ih =>
    have ih2 := ih (fun pn now hm => hq pn now (List.mem_append_left _ hm))
    refine step_length h1 e h2 hs (Inv_run _ _ _ hrun hi) ih2 ?_
    intro pn now he
    exact hq pn now (List.mem_append_right _ (List.mem_singleton.mpr he.symm))

/-- C9 (boundedness).  In every tracker reached from a fresh one by calls none
of which returned the overflow error, `receivedTimes` holds at most 1000
entries, and a `ReceivedPacket` call made there that leaves more than 1000
entries returns the overflow error.  Moreover, in every tracker reached from a
fresh one by any calls, a `ReceivedPacket` call that admits its packet and
leaves more than 1000 entries returns the overflow error. -/
theorem C9_bounded_times (evs : List Event) (h : packetReceiver)
    (hrun : Run newReceivedPacketHandler evs h) :
    ((∀ pn now,
        Event.packet pn now (some Err.errTooManyOutstandingReceivedPackets) ∉ evs) →
      h.receivedTimes.length ≤ 1000 ∧
      ∀ pn now, pn < 4294967296 →
        (h.ReceivedPacket pn now).1.receivedTimes.length > 1000 →
        (h.ReceivedPacket pn now).2 = some Err.errTooManyOutstandingReceivedPackets) ∧
    (∀ pn now, pn < 4294967296 → ¬ Rejected h pn →
      (h.ReceivedPacket pn now).1.receivedTimes.length > 1000 →
      (h.ReceivedPacket pn now).2 = some Err.errTooManyOutstandingReceivedPackets) := by
  have hi : Inv h := Inv_run _ _ _ hrun Inv_fresh
  refine ⟨?_, fun pn now hpn hnr hlen => overflow_of_admitted h pn now hi hpn hnr hlen⟩
  intro hq
  have hlen : h.receivedTimes.length ≤ 1000 :=
    run_length _ evs h hrun Inv_fresh (by simp [newReceivedPacketHandler]) hq
  refine ⟨hlen, ?_⟩
  intro pn now hpn hgt
  by_cases hr : Rejected h pn
  · rw [recv_rejected h pn now hr] at hgt
    omega
  · exact overflow_of_admitted h pn now hi hpn hr hgt

/-- Witness for C9: after the packets 3, 1, 2 on a fresh tracker, none of which
overflowed, `receivedTimes` holds at most 1000 entries. -/
theorem C9_bounded_times_witness : afterPackets312.receivedTimes.length ≤ 1000 :=
  ((C9_bounded_times
    ([] ++ [Event.packet 3 10 (newReceivedPacketHandler.ReceivedPacket 3 10).2] ++
      [Event.packet 1 11
        ((newReceivedPacketHandler.ReceivedPacket 3 10).1.ReceivedPacket 1 11).2] ++
      [Event.packet 2 12
        (((newReceivedPacketHandler.ReceivedPacket 3 10).1.ReceivedPacket 1 11).1.ReceivedPacket
          2 12).2])
    afterPackets312
    (Run.snoc (Run.snoc (Run.snoc (Run.nil _) (Step.packet _ 3 10 (by decide)))
      (Step.packet _ 1 11 (by decide))) (Step.packet _ 2 12 (by decide)))).1
    (by
      intro pn now hm
      simp only [List.nil_append, List.append_assoc, List.cons_append, List.mem_cons,
        List.mem_singleton, List.not_mem_nil, or_false, Event.packet.injEq] at hm
      rcases hm with ⟨_, _, e⟩ | ⟨_, _, e⟩ | ⟨_, _, e⟩ <;> exact absurd e (by decide))).1

/-- C10 (no key at or below the low-water mark).  In every tracker reachable
from a fresh one, every key of `receivedTimes` is above `ignorePacketsBelow`,
and no key lies below `lowestInReceivedTimes`, the start of the
garbage-collection sweep. -/
theorem C10_no_key_below_low_water_mark (h : packetReceiver) (hr : Reachable h) :
    ∀ k ∈ keysOf h.receivedTimes,
      h.ignorePacketsBelow < k ∧ h.lowestInReceivedTimes ≤ k :=
  fun k hk => ⟨(Inv_reachable h hr).keys_ib k hk, (Inv_reachable h hr).keys_floor k hk⟩

/-- Witness for C10: the key 3 of the tracker left by the packets 3, 1, 2. -/
theorem C10_no_key_below_low_water_mark_witness :
    afterPackets312.ignorePacketsBelow < 3 ∧ afterPackets312.lowestInReceivedTimes ≤ 3 :=
  C10_no_key_below_low_water_mark afterPackets312
    ⟨_, Run.snoc (Run.snoc (Run.snoc (Run.nil _) (Step.packet _ 3 10 (by decide)))
      (Step.packet _ 1 11 (by decide))) (Step.packet _ 2 12 (by decide))⟩
    3 (by decide)

/-! ## History and the low-water mark -/

/-- No call lets `ignorePacketsBelow` overtake `largestInOrderObserved`. -/
theorem step_ib_le_lio (h : packetReceiver) (e : Event) (h2 : packetReceiver)
    (hs : Step h e h2) (hle : h.ignorePacketsBelow ≤ h.largestInOrderObserved) :
    h2.ignorePacketsBelow ≤ h2.largestInOrderObserved := by
  cases hs with
  | packet pn now hpn =>
    by_cases hr : Rejected h pn
    · rw [recv_rejected h pn now hr]; exact hle
    · rw [recv_admitted h pn now hpn hr]
      simp only
      split <;> omega
  | stopWaiting fuel f _ hf hr =>
    by_cases hle2 : f ≤ h.ignorePacketsBelow
    · rw [stopWaiting_noop fuel h f hle2] at hr
      simp only [Option.some.injEq] at hr
      subst hr
      exact hle
    · have hlt : h.ignorePacketsBelow < f := by omega
      obtain ⟨m1, _, hcase⟩ := stopWaiting_shape fuel h f h2 hlt hf hr
      rcases hcase with ⟨_, e⟩ | ⟨r, m2, _, _, e⟩
      · subst e
        simp only
        split <;> omega
      · subst e
        exact le_refl _
  | ackFrame dequeue now _ res hr =>
    obtain ⟨e1, _, e3, _, _, _⟩ := ackFrame_fields h dequeue now h2 res hr
    rw [e1, e3]
    exact hle

theorem run_ib_le_lio (s : packetReceiver) (evs : List Event) (h : packetReceiver)
    (hr : Run s evs h) (hle : s.ignorePacketsBelow ≤ s.largestInOrderObserved) :
    h.ignorePacketsBelow ≤ h.largestInOrderObserved := by
  induction hr with
  | nil => exact hle
  | snoc _ hs ih => exact step_ib_le_lio _ _ _ hs ih

/-- C11, counterexample.  After `ReceivedPacket(5)` and `ReceivedStopWaiting(3)`
on a fresh tracker, `ignorePacketsBelow` is 5 and History still holds 5. -/
theorem C11_counterexample :
    newReceivedPacketHandler.ReceivedPacket 5 7 = (afterPacket5, none) ∧
    afterPacket5.ReceivedStopWaiting 7 3 = some afterPacket5StopWaiting3 ∧
    Reachable afterPacket5StopWaiting3 ∧
    5 ∈ afterPacket5StopWaiting3.packetHistory.nums ∧
    5 ≤ afterPacket5StopWaiting3.ignorePacketsBelow :=
  ⟨by decide, by decide,
   ⟨[] ++ [Event.packet 5 7 (newReceivedPacketHandler.ReceivedPacket 5 7).2] ++
      [Event.stopWaiting 3],
    Run.snoc (Run.snoc (Run.nil _) (Step.packet _ 5 7 (by decide)))
      (Step.stopWaiting _ 7 3 _ (by decide) (by decide))⟩,
   by decide, by decide⟩

/-- C11, amended.  In every tracker reachable from a fresh one, History holds
no number strictly below `ignorePacketsBelow` (the number `ignorePacketsBelow`
itself may remain, as it does after a collapse). -/
theorem C11_history_not_below_mark (h : packetReceiver) (hr : Reachable h) :
    ∀ x ∈ h.packetHistory.nums, h.ignorePacketsBelow ≤ x := by
  intro x hx
  obtain ⟨evs, hrun⟩ := hr
  have h1 := run_ib_le_lio _ evs h hrun (le_refl _)
  have h2 := (Inv_run _ _ _ hrun Inv_fresh).hist_ge x hx
  omega

/-- Witness for C11 (amended): the number 5 of History in the tracker left by
`ReceivedPacket(5)` and `ReceivedStopWaiting(3)`. -/
theorem C11_history_not_below_mark_witness :
    afterPacket5StopWaiting3.ignorePacketsBelow ≤ 5 :=
  C11_history_not_below_mark afterPacket5StopWaiting3
    ⟨[] ++ [Event.packet 5 7 (newReceivedPacketHandler.ReceivedPacket 5 7).2] ++
      [Event.stopWaiting 3],
    Run.snoc (Run.snoc (Run.nil _) (Step.packet _ 5 7 (by decide)))
      (Step.stopWaiting _ 7 3 _ (by decide) (by decide))⟩
    5 (by decide)

/-! ## The in-order prefix -/

theorem admittedOf_append (evs evs2 : List Event) :
    admittedOf (evs ++ evs2) = admittedOf evs ++ admittedOf evs2 := by
  unfold admittedOf
  exact List.filterMap_append _ _ _

theorem admittedOf_packet (pn now : Nat) (res : Option Err)
    (hres : res = none ∨ res = some Err.errTooManyOutstandingReceivedPackets) :
    pn ∈ admittedOf [Event.packet pn now res] := by
  simp [admittedOf, hres]

/-- In a run without `ReceivedStopWaiting` calls that starts with
`largestInOrderObserved = 0`, every number from 1 to `largestInOrderObserved`
has been admitted. -/
theorem run_prefix_admitted (s : packetReceiver) (evs : List Event) (h : packetReceiver)
    (hr : Run s evs h) (hs0 : s.largestInOrderObserved = 0)
    (hno : ∀ f, Event.stopWaiting f ∉ evs) :
    ∀ k, 1 ≤ k → k ≤ h.largestInOrderObserved → k ∈ admittedOf evs := by
  induction hr with
  | nil => intro k h1 h2; omega
  | @snoc h1 h2 evs e hrun hs ih =>
    have ih2 := ih (fun f hf => hno f (List.mem_append_left _ hf))
    intro k hk1 hk2
    rw [admittedOf_append]
    cases hs with
    | packet pn now hpn =>
      by_cases hrej : Rejected h1 pn
      · rw [recv_rejected h1 pn now hrej] at hk2
        exact List.mem_append_left _ (ih2 k hk1 hk2)
      · rw [recv_admitted h1 pn now hpn hrej] at hk2
        simp only at hk2
        by_cases hk : k ≤ h1.largestInOrderObserved
        · exact List.mem_append_left _ (ih2 k hk1 hk)
        · have hadv : pn = h1.largestInOrderObserved + 1 := by
            by_contra hc
            rw [if_neg hc] at hk2
            exact hk hk2
          rw [if_pos hadv] at hk2
          have hkp : k = pn := by omega
          subst hkp
          exact List.mem_append_right _
            (admittedOf_packet k now _ (recv_admitted_result h1 k now hrej))
    | stopWaiting fuel f _ hf hr2 =>
      exact absurd (List.mem_append_right _ (List.mem_singleton.mpr rfl)) (hno f)
    | ackFrame dequeue now _ res hr2 =>
      obtain ⟨e1, _, _, _, _, _⟩ := ackFrame_fields h1 dequeue now h2 res hr2
      rw [e1] at hk2
      exact List.mem_append_left _ (ih2 k hk1 hk2)

/-- Packets that arrive in ascending order, starting with the number after
`largestInOrderObserved`, each advance `largestInOrderObserved` by one. -/
theorem recvAll_in_order (n : Nat) : ∀ (cs : List (Nat × Nat)) (h : packetReceiver),
    cs.map Prod.fst = List.range' (h.largestInOrderObserved + 1) n →
    h.ignorePacketsBelow ≤ h.largestInOrderObserved →
    (∀ k ∈ keysOf h.receivedTimes, k ≤ h.largestInOrderObserved) →
    h.largestInOrderObserved + n < 4294967296 →
    (recvAll h cs).1.largestInOrderObserved = h.largestInOrderObserved + n := by
  induction n with
  | zero =>
    intro cs h hcs _ _ _
    have : cs = [] := by simpa using hcs
    subst this
    rfl
  | succ m ih =>
    intro cs h hcs hib hkeys hlt
    rw [List.range'_succ] at hcs
    cases cs with
    | nil => simp at hcs
    | cons c cs2 =>
      simp only [List.map_cons, List.cons.injEq] at hcs
      obtain ⟨hc, hrest⟩ := hcs
      have hadv : (c.1 = h.largestInOrderObserved + 1) = True := by simp [hc]
      have hnr : ¬ Rejected h c.1 := by
        unfold Rejected
        intro hr
        rcases hr with hr | hr | hr | hr
        · omega
        · omega
        · omega
        · have := hkeys c.1 hr
          omega
      have hst := recv_admitted h c.1 c.2 (by omega) hnr
      simp only [hadv, if_true] at hst
      have hlio : (h.ReceivedPacket c.1 c.2).1.largestInOrderObserved =
          h.largestInOrderObserved + 1 := by rw [hst]; exact hc
      have hib2 : (h.ReceivedPacket c.1 c.2).1.ignorePacketsBelow ≤
          (h.ReceivedPacket c.1 c.2).1.largestInOrderObserved := by
        rw [hst]; simp only; omega
      have hkeys2 : ∀ k ∈ keysOf (h.ReceivedPacket c.1 c.2).1.receivedTimes,
          k ≤ (h.ReceivedPacket c.1 c.2).1.largestInOrderObserved := by
        intro k hk
        rw [hst] at hk ⊢
        simp only [keysOf, List.map_cons, List.mem_cons] at hk
        rcases hk with e | e
        · simp only; omega
        · have e2 : k ∈ keysOf (mapDelete h.receivedTimes h.largestInOrderObserved) := e
          rw [mem_keysOf_mapDelete] at e2
          have := hkeys k e2.1
          simp only; omega
      have := ih cs2 (h.ReceivedPacket c.1 c.2).1 (by rw [hlio]; exact hrest) hib2 hkeys2
        (by rw [hlio]; omega)
      simp only [recvAll]
      rw [this, hlio]
      omega

/-- C12, counterexample.  `ReceivedPacket(2)` and then `ReceivedPacket(1)` on a
fresh tracker both return `nil`, so 1 and 2 are admitted and 3 is not, yet
`largestInOrderObserved` is 1, not 2. -/
theorem C12_counterexample :
    Run newReceivedPacketHandler packets21 afterPackets21 ∧
    1 ∈ admittedOf packets21 ∧ 2 ∈ admittedOf packets21 ∧ 3 ∉ admittedOf packets21 ∧
    afterPackets21.largestInOrderObserved = 1 :=
  ⟨Run.snoc (Run.snoc (Run.nil _) (Step.packet _ 2 0 (by decide)))
      (Step.packet _ 1 1 (by decide)),
   by decide, by decide, by decide, rfl⟩

/-- C12, amended.  After any sequence of `ReceivedPacket` (and `GetAckFrame`)
calls on a fresh tracker, every number from 1 to `largestInOrderObserved` has
been admitted, so `largestInOrderObserved` is at most the largest `N` with all
of `[1, N]` admitted; and when the calls carry the numbers `1, 2, ..., n` in
ascending order, `largestInOrderObserved` is `n`. -/
theorem C12_in_order_prefix (evs : List Event) (h : packetReceiver)
    (cs : List (Nat × Nat)) (n : Nat)
    (hrun : Run newReceivedPacketHandler evs h)
    (hno : ∀ f, Event.stopWaiting f ∉ evs)
    (hcs : cs.map Prod.fst = List.range' 1 n) (hn : n < 4294967296) :
    (∀ k, 1 ≤ k → k ≤ h.largestInOrderObserved → k ∈ admittedOf evs) ∧
    (recvAll newReceivedPacketHandler cs).1.largestInOrderObserved = n := by
  refine ⟨run_prefix_admitted _ evs h hrun rfl hno, ?_⟩
  have := recvAll_in_order n cs newReceivedPacketHandler hcs (le_refl _)
    (by simp [newReceivedPacketHandler, keysOf])
    (by simp only [newReceivedPacketHandler]; omega)
  rw [this]
  simp [newReceivedPacketHandler]

/-- Witness for C12 (amended): the run 2, 1 for the first part, the calls 1, 2
for the second. -/
theorem C12_in_order_prefix_witness :
    1 ∈ admittedOf packets21 ∧
    (recvAll newReceivedPacketHandler [(1, 0), (2, 1)]).1.largestInOrderObserved = 2 :=
  have w := C12_in_order_prefix packets21 afterPackets21 [(1, 0), (2, 1)] 2
    (Run.snoc (Run.snoc (Run.nil _) (Step.packet _ 2 0 (by decide)))
      (Step.packet _ 1 1 (by decide)))
    (by intro f hf; simp [packets21] at hf) (by decide) (by decide)
  ⟨w.1 1 (by decide) (by decide), w.2⟩

/-! ## Ascending History lists -/

/-- The last number of an ascending list is its largest. -/
theorem sorted_le_last (l : List Nat) (n : Nat) (hs : l.Pairwise (· < ·))
    (hl : l.getLast? = some n) : ∀ x ∈ l, x ≤ n := by
  induction l with
  | nil => intro x hx; simp at hx
  | cons a rest ih =>
    rw [List.pairwise_cons] at hs
    cases rest with
    | nil =>
      intro x hx
      simp only [List.getLast?_singleton, Option.some.injEq] at hl
      simp only [List.mem_singleton] at hx
      omega
    | cons b r =>
      rw [List.getLast?_cons_cons] at hl
      have ih2 := ih hs.2 hl
      intro x hx
      rcases List.mem_cons.mp hx with e | e
      · have h1 := hs.1 b (List.mem_cons_self _ _)
        have h2 := ih2 b (List.mem_cons_self _ _)
        omega
      · exact ih2 x e

theorem getLast?_cons_of_some {α : Type} (a : α) (l : List α) (n : α)
    (hl : l.getLast? = some n) : (a :: l).getLast? = some n := by
  cases l with
  | nil => simp at hl
  | cons b r => rw [List.getLast?_cons_cons]; exact hl

/-- Truncating an ascending list below `f` keeps its last number when that
number is at least `f`. -/
theorem getLast_filter_sorted (l : List Nat) (n f : Nat) (hl : l.getLast? = some n)
    (hf : f ≤ n) : (l.filter (fun x => decide (f ≤ x))).getLast? = some n := by
  induction l with
  | nil => simp at hl
  | cons a rest ih =>
    cases rest with
    | nil =>
      simp only [List.getLast?_singleton, Option.some.injEq] at hl
      subst hl
      simp [hf]
    | cons b r =>
      rw [List.getLast?_cons_cons] at hl
      have ih2 := ih hl
      by_cases ha : f ≤ a
      · rw [List.filter_cons_of_pos (by simpa using ha)]
        exact getLast?_cons_of_some _ _ _ ih2
      · rw [List.filter_cons_of_neg (by simpa using ha)]
        exact ih2

/-- Truncating an ascending list below its last number leaves exactly that
number. -/
theorem filter_last_sorted (l : List Nat) (n : Nat) (hs : l.Pairwise (· < ·))
    (hl : l.getLast? = some n) : l.filter (fun x => decide (n ≤ x)) = [n] := by
  induction l with
  | nil => simp at hl
  | cons a rest ih =>
    rw [List.pairwise_cons] at hs
    cases rest with
    | nil =>
      simp only [List.getLast?_singleton, Option.some.injEq] at hl
      subst hl
      simp
    | cons b r =>
      rw [List.getLast?_cons_cons] at hl
      have ih2 := ih hs.2 hl
      have hmem : n ∈ b :: r := List.mem_of_getLast?_eq_some hl
      have hlt := hs.1 n hmem
      rw [List.filter_cons_of_neg (by simpa using hlt)]
      exact ih2

theorem lastRange_eq (r : recvHistory) (a : AckRange)
    (h : r.GetAckRanges.getLast? = some a) : r.nums.getLast? = some a.LastPacketNumber := by
  have h1 := rangesOf_getLast r.nums
  unfold recvHistory.GetAckRanges at h
  rw [h] at h1
  simpa using h1.symm

/-- C13 (postcondition of `ReceivedStopWaiting(f)`).  For every tracker whose
numbers are `uint32` values and whose History list is ascending, whenever the
call returns: `stateChanged` is true, and `largestObserved` and
`currentAckFrame` are unchanged; if `ignorePacketsBelow ≥ f` nothing else
changes; otherwise, if History held some number `≥ f`, then with `n` the upper
bound of its last range, `largestInOrderObserved`, `ignorePacketsBelow` and
`lowestInReceivedTimes` all equal `n`, History holds exactly `n`, and
`receivedTimes` has no key in `[old lowestInReceivedTimes, n]`; and if History
held no number `≥ f`, then `ignorePacketsBelow` and `lowestInReceivedTimes`
equal `f - 1`, `largestInOrderObserved` is the maximum of its old value and
`f - 1`, and History is empty.  The call does return when History holds no
number `≥ 4294967295`. -/
theorem C13_low_water_mark_postcondition (h : packetReceiver) (f : Nat)
    (hf : f < 4294967296) (hfloor : h.lowestInReceivedTimes < 4294967296)
    (hbound : ∀ x ∈ h.packetHistory.nums, x < 4294967296)
    (hsorted : h.packetHistory.nums.Pairwise (· < ·)) :
    (∀ fuel h2, h.ReceivedStopWaiting fuel f = some h2 →
      h2.stateChanged = true ∧
      h2.largestObserved = h.largestObserved ∧
      h2.currentAckFrame = h.currentAckFrame ∧
      (f ≤ h.ignorePacketsBelow → h2 = { h with stateChanged := true }) ∧
      (h.ignorePacketsBelow < f → (∃ x ∈ h.packetHistory.nums, f ≤ x) →
        ∀ r, h.packetHistory.GetAckRanges.getLast? = some r →
          h2.largestInOrderObserved = r.LastPacketNumber ∧
          h2.ignorePacketsBelow = r.LastPacketNumber ∧
          h2.lowestInReceivedTimes = r.LastPacketNumber ∧
          h2.packetHistory.nums = [r.LastPacketNumber] ∧
          ∀ k ∈ keysOf h2.receivedTimes,
            ¬ (h.lowestInReceivedTimes ≤ k ∧ k ≤ r.LastPacketNumber)) ∧
      (h.ignorePacketsBelow < f → (∀ x ∈ h.packetHistory.nums, x < f) →
        h2.ignorePacketsBelow = f - 1 ∧
        h2.lowestInReceivedTimes = f - 1 ∧
        h2.largestInOrderObserved = max h.largestInOrderObserved (f - 1) ∧
        h2.packetHistory.nums = [])) ∧
    ((∀ x ∈ h.packetHistory.nums, x < 4294967295) →
      ∃ h2, h.ReceivedStopWaiting 4294967296 f = some h2) := by
  refine ⟨?_, stopWaiting_returns h f hf⟩
  intro fuel h2 hr
  by_cases hle : f ≤ h.ignorePacketsBelow
  · rw [stopWaiting_noop fuel h f hle] at hr
    simp only [Option.some.injEq] at hr
    subst hr
    refine ⟨rfl, rfl, rfl, fun _ => rfl, ?_, ?_⟩
    · intro hlt; omega
    · intro hlt; omega
  · have hlt : h.ignorePacketsBelow < f := by omega
    obtain ⟨m1, hg1, hcase⟩ := stopWaiting_shape fuel h f h2 hlt hf hr
    have hm1 := (gcLoop_some fuel _ _ _ m1 hfloor (by omega) hg1).1
    rcases hcase with ⟨hnil, e⟩ | ⟨r2, m2, hl2, hg2, e⟩
    · subst e
      refine ⟨rfl, rfl, rfl, fun hc => absurd hc hle, ?_, ?_⟩
      · intro _ hex r _
        obtain ⟨x, hx, hfx⟩ := hex
        have : x ∈ (h.packetHistory.DeleteBelow f).nums := by
          rw [mem_DeleteBelow]; exact ⟨hx, hfx⟩
        rw [hnil] at this
        simp at this
      · intro _ _
        refine ⟨rfl, rfl, ?_, hnil⟩
        simp only
        split <;> omega
    · have hmem := lastRange_mem _ r2 hl2
      rw [mem_DeleteBelow] at hmem
      have hn := hbound _ hmem.1
      have hm2 := (gcLoop_some fuel _ _ _ m2 (by omega) hn hg2).1
      have hlast2 := lastRange_eq _ r2 hl2
      subst e
      refine ⟨rfl, rfl, rfl, fun hc => absurd hc hle, ?_, ?_⟩
      · intro _ hex r hl
        have hlast := lastRange_eq _ r hl
        have hmax := sorted_le_last _ _ hsorted hlast
        obtain ⟨x, hx, hfx⟩ := hex
        have hfn : f ≤ r.LastPacketNumber := le_trans hfx (hmax x hx)
        have hkeep := getLast_filter_sorted _ _ f hlast hfn
        have heq : r2.LastPacketNumber = r.LastPacketNumber := by
          have h3 : (h.packetHistory.DeleteBelow f).nums.getLast? =
              some r.LastPacketNumber := hkeep
          rw [hlast2] at h3
          simpa using h3
        have hsorted2 : (h.packetHistory.DeleteBelow f).nums.Pairwise (· < ·) :=
          List.Pairwise.filter _ hsorted
        have hone := filter_last_sorted _ _ hsorted2 hlast2
        simp only
        rw [heq] at hone hm2 ⊢
        refine ⟨rfl, rfl, rfl, hone, ?_⟩
        intro k hk
        rw [hm2, mem_keysOf_sweep, hm1, mem_keysOf_sweep] at hk
        omega
      · intro _ hall
        have := hall _ hmem.1
        omega

/-- Witness for C13: `ReceivedStopWaiting(3)` on the tracker that holds only
packet 5 collapses everything to 5. -/
theorem C13_low_water_mark_postcondition_witness :
    afterPacket5StopWaiting3.largestInOrderObserved = 5 ∧
    afterPacket5StopWaiting3.ignorePacketsBelow = 5 ∧
    afterPacket5StopWaiting3.lowestInReceivedTimes = 5 ∧
    afterPacket5StopWaiting3.packetHistory.nums = [5] :=
  have w := ((C13_low_water_mark_postcondition afterPacket5 3 (by decide) (by decide)
    (by decide) (by decide)).1 7 afterPacket5StopWaiting3 (by decide)).2.2.2.2.1
    (by decide) ⟨5, by decide, by decide⟩ ⟨5, 5⟩ (by decide)
  ⟨w.1, w.2.1, w.2.2.1, w.2.2.2.1⟩

/-! ## The acknowledgment frame -/

/-- The method `GetAckFrame` on a tracker with `stateChanged = true`, written
out by cases on the cached frame and on History's last range. -/
theorem ackFrame_dirty (h : packetReceiver) (dequeue : Bool) (now : Nat)
    (hd : h.stateChanged = true) :
    h.GetAckFrame dequeue now =
      match h.currentAckFrame with
      | some fr => some ({ h with stateChanged := !dequeue }, some fr)
      | none =>
        match h.packetHistory.GetAckRanges.getLast? with
        | none => none
        | some last =>
          some
            ({ h with
                stateChanged := !dequeue
                currentAckFrame :=
                  some
                    { LargestAcked := h.largestObserved
                      LargestInOrder := last.FirstPacketNumber
                      AckRanges :=
                        if h.packetHistory.GetAckRanges.length > 1 then
                          some h.packetHistory.GetAckRanges
                        else none
                      PacketReceivedTime := now } },
              some
                { LargestAcked := h.largestObserved
                  LargestInOrder := last.FirstPacketNumber
                  AckRanges :=
                    if h.packetHistory.GetAckRanges.length > 1 then
                      some h.packetHistory.GetAckRanges
                    else none
                  PacketReceivedTime := now }) := by
  obtain ⟨a1, a2, a3, a4, a5, a6, a7, a8⟩ := h
  simp only at hd
  subst hd
  unfold packetReceiver.GetAckFrame
  cases dequeue <;> cases a4 <;> simp only [Bool.true_eq_false, if_false, if_true,
    Bool.false_eq_true, Bool.not_false, Bool.not_true]

theorem ackFrame_clean (h : packetReceiver) (dequeue : Bool) (now : Nat)
    (hd : h.stateChanged = false) : h.GetAckFrame dequeue now = some (h, none) := by
  unfold packetReceiver.GetAckFrame
  simp [hd]

/-- C14 (summary construction).  For every tracker with `stateChanged = true`,
`currentAckFrame = nil` and a non-empty History range list whose last range is
`r`, `GetAckFrame(dequeue)` returns a frame with `LargestAcked =
largestObserved`, `LargestInOrder = r.FirstPacketNumber`, `AckRanges` the whole
list when it has more than one range and absent otherwise, stamped `now`; the
frame is stored in `currentAckFrame`; and `stateChanged` is false afterwards
exactly when `dequeue` is true. -/
theorem C14_summary_construction (h : packetReceiver) (dequeue : Bool) (now : Nat)
    (r : AckRange) (hd : h.stateChanged = true) (hc : h.currentAckFrame = none)
    (hl : h.packetHistory.GetAckRanges.getLast? = some r) :
    h.GetAckFrame dequeue now =
      some
        ({ h with
            stateChanged := !dequeue
            currentAckFrame :=
              some
                { LargestAcked := h.largestObserved
                  LargestInOrder := r.FirstPacketNumber
                  AckRanges :=
                    if h.packetHistory.GetAckRanges.length > 1 then
                      some h.packetHistory.GetAckRanges
                    else none
                  PacketReceivedTime := now } },
          some
            { LargestAcked := h.largestObserved
              LargestInOrder := r.FirstPacketNumber
              AckRanges :=
                if h.packetHistory.GetAckRanges.length > 1 then
                  some h.packetHistory.GetAckRanges
                else none
              PacketReceivedTime := now }) := by
  rw [ackFrame_dirty h dequeue now hd, hc]
  simp only [hl]

/-- Witness for C14: a fresh tracker, `ReceivedPacket(1)`, then
`GetAckFrame(true)` gives largest acked 1, largest in order 1, no ranges. -/
theorem C14_summary_construction_witness :
    newReceivedPacketHandler.ReceivedPacket 1 7 = (afterPacket1, none) ∧
    afterPacket1.GetAckFrame true 9 =
      some ({ afterPacket1 with stateChanged := false, currentAckFrame := some frameOf1 },
        some frameOf1) :=
  ⟨by decide,
   C14_summary_construction afterPacket1 true 9 ⟨1, 1⟩ (by decide) (by decide) (by decide)⟩

/-- What a returning `GetAckFrame` on a tracker with `stateChanged = true`
leaves behind: the returned frame is cached and `stateChanged` is the negation
of `dequeue`. -/
theorem ackFrame_dirty_after (h : packetReceiver) (dequeue : Bool) (now : Nat)
    (h1 : packetReceiver) (res : Option sack) (hd : h.stateChanged = true)
    (hr : h.GetAckFrame dequeue now = some (h1, res)) :
    h1.stateChanged = (!dequeue) ∧ h1.currentAckFrame = res ∧ res ≠ none := by
  rw [ackFrame_dirty h dequeue now hd] at hr
  cases hc : h.currentAckFrame with
  | some fr0 =>
    rw [hc] at hr
    simp only [Option.some.injEq, Prod.mk.injEq] at hr
    obtain ⟨e1, e2⟩ := hr
    subst e1 e2
    exact ⟨rfl, rfl, by simp⟩
  | none =>
    rw [hc] at hr
    cases hl : h.packetHistory.GetAckRanges.getLast? with
    | none => rw [hl] at hr; simp at hr
    | some last =>
      rw [hl] at hr
      simp only [Option.some.injEq, Prod.mk.injEq] at hr
      obtain ⟨e1, e2⟩ := hr
      subst e1 e2
      exact ⟨rfl, rfl, by simp⟩

/-- C16 (memoization).  Whenever `GetAckFrame(false)` returns a frame, the same
call made again at once, at any time, returns the identical frame (same
`PacketReceivedTime`, same `AckRanges`) and leaves the tracker as the first call
left it. -/
theorem C16_memoized (h : packetReceiver) (now now2 : Nat) (h1 : packetReceiver)
    (fr : sack) (hr : h.GetAckFrame false now = some (h1, some fr)) :
    h1.GetAckFrame false now2 = some (h1, some fr) := by
  have hd : h.stateChanged = true := by
    by_contra hs
    have hs2 : h.stateChanged = false := by simpa using hs
    rw [ackFrame_clean h false now hs2] at hr
    simp at hr
  obtain ⟨e1, e2, _⟩ := ackFrame_dirty_after h false now h1 (some fr) hd hr
  simp only [Bool.not_false] at e1
  rw [ackFrame_dirty h1 false now2 e1, e2]
  simp only [Bool.not_false]
  obtain ⟨a1, a2, a3, a4, a5, a6, a7, a8⟩ := h1
  simp only at e1 e2
  subst e1 e2
  rfl

/-- Witness for C16: two `GetAckFrame(false)` calls after packet 1, at times 9
and 12. -/
theorem C16_memoized_witness :
    ({ afterPacket1 with currentAckFrame := some frameOf1 } : packetReceiver).GetAckFrame
        false 12 =
      some ({ afterPacket1 with currentAckFrame := some frameOf1 }, some frameOf1) :=
  C16_memoized afterPacket1 9 12 _ frameOf1 (by decide)

/-- C17 (nothing to acknowledge).  For every tracker with `stateChanged =
false`, `GetAckFrame` returns no frame and no error and leaves the tracker
unchanged; so does a fresh tracker; and after any returning `GetAckFrame(true)`
the next `GetAckFrame` call returns no frame and leaves the tracker unchanged,
with the frame that the first call returned still in `currentAckFrame`. -/
theorem C17_no_summary_when_clean (h : packetReceiver) (dequeue : Bool) (now : Nat) :
    (h.stateChanged = false → h.GetAckFrame dequeue now = some (h, none)) ∧
    newReceivedPacketHandler.GetAckFrame dequeue now = some (newReceivedPacketHandler, none) ∧
    (∀ now0 h1 res, h.GetAckFrame true now0 = some (h1, res) →
      h1.GetAckFrame dequeue now = some (h1, none) ∧
      (∀ fr, res = some fr → h1.currentAckFrame = some fr)) := by
  refine ⟨ackFrame_clean h dequeue now, ackFrame_clean _ dequeue now rfl, ?_⟩
  intro now0 h1 res hr
  by_cases hs : h.stateChanged = false
  · rw [ackFrame_clean h true now0 hs] at hr
    simp only [Option.some.injEq, Prod.mk.injEq] at hr
    obtain ⟨e1, e2⟩ := hr
    subst e1 e2
    exact ⟨ackFrame_clean h dequeue now hs, fun fr hfr => by simp at hfr⟩
  · have hd : h.stateChanged = true := by simpa using hs
    obtain ⟨e1, e2, _⟩ := ackFrame_dirty_after h true now0 h1 res hd hr
    refine ⟨ackFrame_clean h1 dequeue now (by simpa using e1), ?_⟩
    intro fr hfr
    rw [e2, hfr]

/-- Witness for C17: after packet 1 and `GetAckFrame(true)` at time 9, a
further `GetAckFrame(false)` returns no frame and the cached frame stays. -/
theorem C17_no_summary_when_clean_witness :
    ({ afterPacket1 with stateChanged := false, currentAckFrame := some frameOf1 } :
        packetReceiver).GetAckFrame false 12 =
      some ({ afterPacket1 with stateChanged := false, currentAckFrame := some frameOf1 },
        none) ∧
    ({ afterPacket1 with stateChanged := false, currentAckFrame := some frameOf1 } :
        packetReceiver).currentAckFrame = some frameOf1 :=
  have w := (C17_no_summary_when_clean afterPacket1 false 12).2.2 9 _ (some frameOf1)
    (by decide)
  ⟨w.1, w.2 frameOf1 rfl⟩

/-- C15, counterexample.  On a fresh tracker `ReceivedPacket(5)` and
`ReceivedPacket(3)` return `nil` and History reports `[[3,3],[5,5]]`, but
`GetAckFrame(true)` does not return a frame with `LargestInOrder = 3`. -/
theorem C15_counterexample :
    newReceivedPacketHandler.ReceivedPacket 5 7 = (afterPacket5, none) ∧
    afterPacket5.ReceivedPacket 3 8 = (afterPackets53, none) ∧
    afterPackets53.packetHistory.GetAckRanges = [⟨3, 3⟩, ⟨5, 5⟩] ∧
    ¬ ∃ h1 fr, afterPackets53.GetAckFrame true 9 = some (h1, some fr) ∧
      fr.LargestAcked = 5 ∧ fr.LargestInOrder = 3 ∧
      fr.AckRanges = some [⟨3, 3⟩, ⟨5, 5⟩] := by
  refine ⟨by decide, by decide, by decide, ?_⟩
  rintro ⟨h1, fr, hr, _, h3, _⟩
  have hev : afterPackets53.GetAckFrame true 9 =
      some ({ afterPackets53 with stateChanged := false, currentAckFrame := some frameOf53 },
        some frameOf53) := by decide
  rw [hev] at hr
  simp only [Option.some.injEq, Prod.mk.injEq] at hr
  rw [← hr.2] at h3
  exact absurd h3 (by decide)

/-- C15, amended.  On a fresh tracker `ReceivedPacket(5)` and
`ReceivedPacket(3)` return `nil`, History reports `[[3,3],[5,5]]`, and
`GetAckFrame(true)` returns the frame with `LargestAcked = 5`, `LargestInOrder =
5` (the lower bound of the last range `[5,5]`) and `AckRanges = [[3,3],[5,5]]`. -/
theorem C15_scenario_out_of_order :
    newReceivedPacketHandler.ReceivedPacket 5 7 = (afterPacket5, none) ∧
    afterPacket5.ReceivedPacket 3 8 = (afterPackets53, none) ∧
    afterPackets53.packetHistory.GetAckRanges = [⟨3, 3⟩, ⟨5, 5⟩] ∧
    afterPackets53.GetAckFrame true 9 =
      some ({ afterPackets53 with stateChanged := false, currentAckFrame := some frameOf53 },
        some frameOf53) ∧
    frameOf53.LargestAcked = 5 ∧ frameOf53.LargestInOrder = 5 ∧
    frameOf53.AckRanges = some [⟨3, 3⟩, ⟨5, 5⟩] :=
  ⟨by decide, by decide, by decide, by decide, rfl, rfl, rfl⟩

/-- C18, the failing run.  After the packets 5 and 3, `GetAckFrame(false)`
caches a frame with the ranges `[[3,3],[5,5]]`; `ReceivedStopWaiting(4)` then
returns with History reduced to `[[5,5]]` but leaves that frame in
`currentAckFrame`, and the next `GetAckFrame(false)` returns it, ranges
`[[3,3],[5,5]]` included. -/
theorem C18_stale_frame_after_stop_waiting :
    afterPackets53.GetAckFrame false 9 = some (afterPackets53Cached, some frameOf53) ∧
    afterPackets53Cached.ReceivedStopWaiting 7 4 = some afterStopWaiting4Cached ∧
    afterStopWaiting4Cached.currentAckFrame = some frameOf53 ∧
    afterStopWaiting4Cached.packetHistory.GetAckRanges = [⟨5, 5⟩] ∧
    afterStopWaiting4Cached.GetAckFrame false 11 =
      some (afterStopWaiting4Cached, some frameOf53) ∧
    frameOf53.AckRanges = some [⟨3, 3⟩, ⟨5, 5⟩] ∧
    Reachable afterStopWaiting4Cached :=
  ⟨by decide, by decide, rfl, by decide, by decide, rfl,
   ⟨[] ++ [Event.packet 5 7 (newReceivedPacketHandler.ReceivedPacket 5 7).2] ++
      [Event.packet 3 8
        ((newReceivedPacketHandler.ReceivedPacket 5 7).1.ReceivedPacket 3 8).2] ++
      [Event.ackFrame false 9 (some frameOf53)] ++ [Event.stopWaiting 4],
    Run.snoc
      (Run.snoc
        (Run.snoc (Run.snoc (Run.nil _) (Step.packet _ 5 7 (by decide)))
          (Step.packet _ 3 8 (by decide)))
        (Step.ackFrame _ false 9 afterPackets53Cached (some frameOf53) (by decide)))
      (Step.stopWaiting _ 7 4 _ (by decide) (by decide))⟩⟩

/-- C19, the failing run.  `ReceivedPacket(4294967295)` on a fresh tracker
returns `nil`; on the tracker it leaves, `ReceivedStopWaiting(1)` does not
return, whatever the fuel: the second sweep has the upper bound `4294967295`,
which every `uint32` loop counter satisfies. -/
theorem C19_stop_waiting_never_returns :
    newReceivedPacketHandler.ReceivedPacket 4294967295 0 = (afterPacketMax, none) ∧
    Reachable afterPacketMax ∧
    ∀ fuel, afterPacketMax.ReceivedStopWaiting fuel 1 = none := by
  refine ⟨by decide,
    ⟨[] ++ [Event.packet 4294967295 0
        (newReceivedPacketHandler.ReceivedPacket 4294967295 0).2],
      Run.snoc (Run.nil _) (Step.packet _ 4294967295 0 (by decide))⟩, ?_⟩
  intro fuel
  cases hres : afterPacketMax.ReceivedStopWaiting fuel 1 with
  | none => rfl
  | some h2 =>
    exfalso
    obtain ⟨m1, _, hcase⟩ :=
      stopWaiting_shape fuel afterPacketMax 1 h2 (by decide) (by decide) hres
    rcases hcase with ⟨hnil, _⟩ | ⟨r, m2, hl, hg2, _⟩
    · exact absurd hnil (by decide)
    · have hmem := lastRange_mem _ r hl
      have hr : r.LastPacketNumber = 4294967295 := by
        simpa [afterPacketMax, recvHistory.DeleteBelow] using hmem
      rw [hr, gcLoop_max_none fuel _ _ (by decide)] at hg2
      simp at hg2

/-- C20, the failing run.  `ReceivedStopWaiting(0)` on a fresh tracker returns
and leaves `stateChanged = true`, `currentAckFrame = nil` and an empty History
range list; `GetAckFrame` then indexes the empty list and fails. -/
theorem C20_ack_frame_fails_on_empty_history :
    newReceivedPacketHandler.ReceivedStopWaiting 0 0 = some afterStopWaiting0 ∧
    Reachable afterStopWaiting0 ∧
    afterStopWaiting0.stateChanged = true ∧
    afterStopWaiting0.currentAckFrame = none ∧
    afterStopWaiting0.packetHistory.GetAckRanges = [] ∧
    afterStopWaiting0.GetAckFrame false 1 = none ∧
    afterStopWaiting0.GetAckFrame true 1 = none :=
  ⟨by decide,
   ⟨[] ++ [Event.stopWaiting 0],
    Run.snoc (Run.nil _) (Step.stopWaiting _ 0 0 _ (by decide) (by decide))⟩,
   rfl, rfl, by decide, by decide, by decide⟩

end ugo
